import Mathlib

/-!
Verification of the message routing and delivery engine of the chat server
(src/server.py) against its specification.

The first part is a shallow embedding of the server's state and operations:
Python dicts with string keys become association lists, the global mutable
state (clients, undelivered, groups, plus the spool directory on disk)
becomes an explicit record threaded through the operations, and every
transport write is recorded as an event.  Transport failures (an exception
raised while writing to a client's stream) are modelled by an oracle
`fails : String -> Header -> Bool` saying whether the write of a given frame
to a given user's connection raises.

The second part (namespace Codec) models the frame codec of send_header /
recv_header, including the JSON serialization performed by json.dumps /
json.loads (the Python standard library collaborators), restricted to the
value types the program puts in headers: strings, integers, arrays and
string-keyed objects.
-/

namespace Chat

/-- Header values as used by server.py: strings and integers ("filesize",
"type", "to", "from", "text", "filename", "offline_path", ...). -/
inductive Val where
| s : String → Val
| n : Int → Val
deriving DecidableEq, Repr

/-- A wire header: a Python dict with string keys, in insertion order. -/
abbrev Header : Type := List (String × Val)

/-- Raw payload bytes (file contents). -/
abbrev Bytes : Type := List Nat

/-- Dict lookup, d.get(k): the value at the first (in a real dict, only)
binding of k. -/
def alookup {α : Type} : List (String × α) → String → Option α
| [], _ => none
| (k, v) :: t, key => if k = key then some v else alookup t key

/-- Dict update, d[k] = v: replace the binding in place if the key is
present, else append a new binding at the end (Python dicts preserve
insertion order). -/
def aset {α : Type} : List (String × α) → String → α → List (String × α)
| [], key, v => [(key, v)]
| (k, w) :: t, key, v => if k = key then (k, v) :: t else (k, w) :: aset t key v

/-- Dict removal, d.pop(k, None): drop the binding of k. -/
def aremove {α : Type} : List (String × α) → String → List (String × α)
| [], _ => []
| (k, v) :: t, key => if k = key then t else (k, v) :: aremove t key

/-- header.get(k) on a header. -/
def hGet (h : Header) (k : String) : Option Val := alookup h k

/-- header[k] = v on a header. -/
def hSet (h : Header) (k : String) (v : Val) : Header := aset h k v

/-- header.pop(k, None) on a header. -/
def hPop (h : Header) (k : String) : Header := aremove h k

/-- The string value at key k, when it is a string. -/
def hGetS (h : Header) (k : String) : Option String :=
  match hGet h k with
  | some (Val.s v) => some v
  | _ => none

/-- server.py line 18: STORAGE_DIR = "server_storage". -/
def STORAGE_DIR : String := "server_storage"

/-- One pending offline item: a header plus an optional inline payload. -/
abbrev Itm : Type := Header × Option Bytes

instance decEqItm : DecidableEq Itm := inferInstance

/-- The server's global mutable state (server.py lines 22-24), plus the
spool directory on disk used by _write_file / _read_file / os.remove:
clients (username -> writer, presence is what the model keeps), undelivered
(username -> list of pending items), groups (group name -> member set,
kept as a list in insertion order), disk (path -> bytes). -/
structure SState where
  clients : List String
  undelivered : List (String × List Itm)
  groups : List (String × List String)
  disk : List (String × Bytes)
deriving DecidableEq

/-- A target descriptor put on the dispatch queue (server.py lines 211,
216, 250, 267, 271). -/
inductive Target where
| user : String → Target
| group : String → Target
deriving DecidableEq, Repr

/-- Observable effects of the server operations:
sent - a frame (and optional payload) was written to user's connection;
sendFailed - the write to user's connection raised (and was caught);
readFailed - _read_file raised for a missing spool path (and was caught);
spooled - _write_file wrote bytes under a spool path;
enqueued - an item was appended to user's undelivered queue;
reply - a frame was written back on the handling connection itself;
queued - a request was put on the asyncio message_queue;
closed - the handling connection was closed. -/
inductive Ev where
| sent : String → Header → Option Bytes → Ev
| sendFailed : String → Header → Ev
| readFailed : String → Header → String → Ev
| spooled : String → Bytes → Ev
| enqueued : String → Header → Option Bytes → Ev
| reply : Header → Ev
| queued : Header → Option Bytes → String → Target → Ev
| closed : Ev
deriving DecidableEq

/-- undelivered.get(username, []) and, for the defaultdict, the current
list at a key. -/
def uGet (m : List (String × List Itm)) (u : String) : List Itm :=
  (alookup m u).getD []

/-- undelivered[username].append(item) on the defaultdict(list). -/
def uAppend (m : List (String × List Itm)) (u : String) (it : Itm) :
    List (String × List Itm) :=
  aset m u (uGet m u ++ [it])

/-- groups.get(group_name, set()) membership list (model of the member
set, in insertion order). -/
def gGet (m : List (String × List String)) (g : String) : List String :=
  (alookup m g).getD []

/-- groups[g].add(u) on the defaultdict(set): create the group if absent,
add u if not already a member. -/
def gAdd (m : List (String × List String)) (g : String) (u : String) :
    List (String × List String) :=
  aset m g (if u ∈ gGet m g then gGet m g else gGet m g ++ [u])

/-- header.get("filename", "unknown") as used in the f-string of
store_undelivered (server.py line 68). -/
def fnameOf (h : Header) : String :=
  match hGet h "filename" with
  | some (Val.s f) => f
  | some (Val.n i) => toString i
  | none => "unknown"

/-- The spool path os.path.join(STORAGE_DIR, f"...") built at server.py
lines 69-70: STORAGE_DIR/username_taskname_filename, where taskname is the
name of the asyncio task that runs store_undelivered. -/
def spoolPath (username task fname : String) : String :=
  STORAGE_DIR ++ "/" ++ username ++ "_" ++ task ++ "_" ++ fname

/-- store_undelivered (server.py lines 64-80).  task is the value of
asyncio.current_task().get_name() at the call.  For a file-typed header
with a payload the bytes are spooled to disk and the enqueued header
carries "offline_path" instead of the inline bytes; otherwise the item is
enqueued inline. -/
def store_undelivered (task : String) (st : SState) (username : String)
    (header : Header) (fileBytes : Option Bytes) : SState × List Ev :=
  match fileBytes, decide (hGet header "type" = some (Val.s "file")) with
  | some bs, true =>
      let path := spoolPath username task (fnameOf header)
      let nh := hSet header "offline_path" (Val.s path)
      ({ st with disk := aset st.disk path bs,
                 undelivered := uAppend st.undelivered username (nh, none) },
       [Ev.spooled path bs, Ev.enqueued username nh none])
  | fb, _ =>
      ({ st with undelivered := uAppend st.undelivered username (header, fb) },
       [Ev.enqueued username header fb])

/-- The item that store_undelivered appends to username's queue. -/
def storedItem (task : String) (username : String) (header : Header)
    (fileBytes : Option Bytes) : Itm :=
  match fileBytes, decide (hGet header "type" = some (Val.s "file")) with
  | some _, true =>
      (hSet header "offline_path" (Val.s (spoolPath username task (fnameOf header))), none)
  | fb, _ => (header, fb)

/-- The events that store_undelivered produces. -/
def storeEvs (task : String) (username : String) (header : Header)
    (fileBytes : Option Bytes) : List Ev :=
  match fileBytes, decide (hGet header "type" = some (Val.s "file")) with
  | some bs, true =>
      let path := spoolPath username task (fnameOf header)
      [Ev.spooled path bs, Ev.enqueued username (hSet header "offline_path" (Val.s path)) none]
  | fb, _ => [Ev.enqueued username header fb]

/-- deliver_to_user (server.py lines 47-62): if the user is registered,
write the frame (falling back to store_undelivered when the write raises);
otherwise store for later. -/
def deliver_to_user (fails : String → Header → Bool) (task : String) (st : SState)
    (username : String) (header : Header) (fileBytes : Option Bytes) :
    SState × List Ev :=
  if username ∈ st.clients then
    if fails username header then
      let r := store_undelivered task st username header fileBytes
      (r.1, Ev.sendFailed username header :: r.2)
    else (st, [Ev.sent username header fileBytes])
  else store_undelivered task st username header fileBytes

/-- The events deliver_to_user produces; they depend on the state only
through the set of registered clients. -/
def deliverEvs (fails : String → Header → Bool) (task : String)
    (clients : List String) (username : String) (header : Header)
    (fileBytes : Option Bytes) : List Ev :=
  if username ∈ clients then
    if fails username header then
      Ev.sendFailed username header :: storeEvs task username header fileBytes
    else [Ev.sent username header fileBytes]
  else storeEvs task username header fileBytes

/-- The non-file branch of the per-item body of handle_undelivered
(server.py lines 120-124): send the header, then the inline payload. -/
def drainPlain (fails : String → Header → Bool) (username : String)
    (st : SState) (item : Itm) : SState × List Ev :=
  if fails username item.1 then (st, [Ev.sendFailed username item.1])
  else (st, [Ev.sent username item.1 item.2])

/-- The per-item body of the loop of handle_undelivered (server.py lines
103-126), including the per-item try/except: for a spooled file the path
is read back (a missing path raises, which the except logs), the header is
rewritten (offline_path popped, filesize set to the length read) and sent
with the bytes, and the spool file is removed after a successful send.
A non-string or empty "offline_path" value is falsy in Python and takes
the plain branch; only send paths produced by store_undelivered (always
non-empty strings) are reachable. -/
def drainStep (fails : String → Header → Bool) (username : String)
    (st : SState) (item : Itm) : SState × List Ev :=
  match hGet item.1 "offline_path" with
  | some (Val.s path) =>
      if path = "" then drainPlain fails username st item
      else
        match alookup st.disk path with
        | none => (st, [Ev.readFailed username item.1 path])
        | some buffer =>
            let h2 := hSet (hPop item.1 "offline_path") "filesize" (Val.n buffer.length)
            if fails username h2 then (st, [Ev.sendFailed username h2])
            else ({ st with disk := aremove st.disk path },
                  [Ev.sent username h2 (some buffer)])
  | _ => drainPlain fails username st item

/-- The for-loop of handle_undelivered over the pending items, threading
the state and accumulating the per-item events. -/
def drainFold (fails : String → Header → Bool) (username : String)
    (items : List Itm) (st : SState) (evs0 : List Ev) : SState × List Ev :=
  items.foldl
    (fun acc it =>
      let s := drainStep fails username acc.1 it
      (s.1, acc.2 ++ s.2))
    (st, evs0)

/-- handle_undelivered (server.py lines 92-129): deliver every pending
item in queue order, swallowing per-item failures, then clear the whole
queue for the user.  The guard on the writer mirrors the early return for
an absent user; it is unreachable from handle_client, which registers the
user first (clients.get would in fact raise on unpacking None). -/
def handle_undelivered (fails : String → Header → Bool) (st : SState)
    (username : String) : SState × List Ev :=
  let items := uGet st.undelivered username
  if items.isEmpty then (st, [])
  else if username ∈ st.clients then
    let r := drainFold fails username items st []
    ({ r.1 with undelivered := aremove r.1.undelivered username }, r.2)
  else (st, [])

/-- The per-member body of broadcast_group's fan-out: skip the sender
(header["from"]), otherwise deliver_to_user. -/
def bgStep (fails : String → Header → Bool) (gtask : String → String)
    (header : Header) (fileBytes : Option Bytes) (sender : Option Val) :
    SState × List Ev → String → SState × List Ev :=
  fun acc m =>
    if some (Val.s m) = sender then acc
    else
      let r := deliver_to_user fails (gtask m) acc.1 m header fileBytes
      (r.1, acc.2 ++ r.2)

/-- broadcast_group (server.py lines 131-143): deliver to every member of
the group except header["from"], via asyncio.gather over one
deliver_to_user per member.  gtask gives the gather-created task's name
for each member (these are the names store_undelivered sees); the
concurrent sub-deliveries are serialized in member order, which touches
each member's queue and spool path independently. -/
def broadcast_group (fails : String → Header → Bool) (gtask : String → String)
    (st : SState) (gname : String) (header : Header)
    (fileBytes : Option Bytes) : SState × List Ev :=
  let members := gGet st.groups gname
  let sender := hGet header "from"
  members.foldl (bgStep fails gtask header fileBytes sender) (st, ([] : List Ev))

/-- One iteration of message_dispatcher (server.py lines 145-168) on a
dequeued request: stamp header["from"] with the origin username, then route
by target.  dtask is the (fixed) name of the single dispatcher task: a
user-target store_undelivered runs directly inside it, while a group
target fans out through gather tasks named by gtask. -/
def dispatch (fails : String → Header → Bool) (dtask : String)
    (gtask : String → String) (st : SState) (header : Header)
    (fileBytes : Option Bytes) (origin : String) (target : Target) :
    SState × List Ev :=
  match target with
  | Target.group gname =>
      broadcast_group fails gtask st gname (hSet header "from" (Val.s origin)) fileBytes
  | Target.user uname =>
      deliver_to_user fails dtask st uname (hSet header "from" (Val.s origin)) fileBytes

/-- The error frame send_header writes for a reply with type "error". -/
def errHeader (msg : String) : Header := [("type", Val.s "error"), ("message", Val.s msg)]

/-- The info frame send_header writes for a reply with type "info". -/
def infoHeader (msg : String) : Header := [("type", Val.s "info"), ("message", Val.s msg)]

/-- The auth stage of handle_client (server.py lines 176-198) for a
well-formed auth frame carrying username u, together with the finally
block (lines 284-290) when the connection closes inside this stage: if u
is already registered, reply error username_taken and close - whereupon
the finally block executes clients.pop(u, None), removing the registry
binding of the existing session; otherwise register u, reply info auth_ok
and drain the pending queue. -/
def authStep (fails : String → Header → Bool) (st : SState) (u : String) :
    SState × List Ev :=
  if u ∈ st.clients then
    ({ st with clients := st.clients.erase u },
     [Ev.reply (errHeader "username_taken"), Ev.closed])
  else
    let st1 := { st with clients := st.clients ++ [u] }
    let r := handle_undelivered fails st1 u
    (r.1, Ev.reply (infoHeader "auth_ok") :: r.2)

/-- The add_to_group branch of handle_client (server.py lines 229-251) for
a well-formed frame: reject with an error reply (and continue the loop)
unless the requester is already a member of an existing group; on success
add the member, reply info, and enqueue a notification dispatch for the
added user. -/
def handleAddToGroup (st : SState) (username gname userToAdd : String) :
    SState × List Ev :=
  if alookup st.groups gname = none ∨ username ∉ gGet st.groups gname then
    (st, [Ev.reply (errHeader
      ("Você não tem permissão para adicionar usuários ao grupo \x27" ++ gname ++ "\x27."))])
  else
    ({ st with groups := gAdd st.groups gname userToAdd },
     [Ev.reply (infoHeader
        ("Usuário \x27" ++ userToAdd ++ "\x27 foi adicionado ao grupo \x27" ++ gname ++ "\x27.")),
      Ev.queued (infoHeader
        ("Você foi adicionado ao grupo \x27" ++ gname ++ "\x27 por " ++ username ++ "."))
        none username (Target.user userToAdd)])

/-- The failure oracle of a run in which no transport write raises. -/
def noFails : String → Header → Bool := fun _ _ => false

/-- Is the event a frame written back on the handling connection? -/
def isReplyEv : Ev → Bool
| Ev.reply _ => true
| _ => false

/-- Is the event a connection close? -/
def isClosedEv : Ev → Bool
| Ev.closed => true
| _ => false

/-- Is the event a successful transport write to a registered user? -/
def isSentEv : Ev → Bool
| Ev.sent _ _ _ => true
| _ => false

/-- Is the event a direct-delivery attempt (a transport write to a
registered user, successful or raising)? -/
def isSendAttemptEv : Ev → Bool
| Ev.sent _ _ _ => true
| Ev.sendFailed _ _ => true
| _ => false

/-- Is the event an offline-store enqueue? -/
def isEnqEv : Ev → Bool
| Ev.enqueued _ _ _ => true
| _ => false

/-- The username an event is addressed to, when any. -/
def evUser : Ev → Option String
| Ev.sent u _ _ => some u
| Ev.sendFailed u _ => some u
| Ev.readFailed u _ _ => some u
| Ev.enqueued u _ _ => some u
| _ => none

/-- One call to store_undelivered, as scheduled by the dispatcher or a
gather task: the storing task's name, the recipient, and the item. -/
structure StoreOp where
  task : String
  user : String
  header : Header
  payload : Option Bytes

/-- A sequence of offline enqueues (any interleaving of senders and
recipients), applied in order. -/
def applyStores (ops : List StoreOp) (st : SState) : SState :=
  ops.foldl (fun s op => (store_undelivered op.task s op.user op.header op.payload).1) st

/-- A state with one registered session, for user "alice". -/
def exAliceOnline : SState :=
  { clients := ["alice"], undelivered := [], groups := [], disk := [] }

/-- A state where "bob" is online with two plain pending items queued. -/
def exC2State : SState :=
  { clients := ["bob"],
    undelivered := [("bob",
      [([("type", Val.s "msg"), ("text", Val.s "a")], none),
       ([("type", Val.s "msg"), ("text", Val.s "b")], none)])],
    groups := [], disk := [] }

/-- A failure oracle under which only the frame with text "a" fails. -/
def failsTextA : String → Header → Bool :=
  fun _ h => decide (hGet h "text" = some (Val.s "a"))

/-- The msg frame of the redelivery scenario. -/
def exMsgHeader : Header :=
  [("type", Val.s "msg"), ("to", Val.s "bob"), ("text", Val.s "hi")]

/-- Dispatch of the scenario msg while "bob" is offline. -/
def exC4Send : SState × List Ev :=
  dispatch noFails "Task-1" (fun _ => "Task-2") exAliceOnline exMsgHeader none
    "alice" (Target.user "bob")

/-- The session-start (auth stage) of "bob" reconnecting afterwards. -/
def exC4Session : SState × List Ev := authStep noFails exC4Send.1 "bob"

/-- The scenario msg frame after the dispatcher stamped "from". -/
def exMsgStamped : Header :=
  [("type", Val.s "msg"), ("to", Val.s "bob"), ("text", Val.s "hi"),
   ("from", Val.s "alice")]

/-- A file frame addressed to "bob". -/
def exFileHeader : Header :=
  [("type", Val.s "file"), ("to", Val.s "bob"), ("filename", Val.s "a.txt"),
   ("filesize", Val.n 3), ("target", Val.s "user")]

/-- First offline file send to "bob"; the dispatcher task (the task
store_undelivered runs in for a user target) is named "Task-1". -/
def exC5Send1 : SState × List Ev :=
  dispatch noFails "Task-1" (fun _ => "Task-2") exAliceOnline exFileHeader
    (some [1, 2, 3]) "alice" (Target.user "bob")

/-- Second offline file send to "bob" with the same declared filename,
processed by the same (single) dispatcher task. -/
def exC5Send2 : SState × List Ev :=
  dispatch noFails "Task-1" (fun _ => "Task-2") exC5Send1.1 exFileHeader
    (some [9, 9, 9]) "alice" (Target.user "bob")

/-- A state with one group "team" whose only member is "alice". -/
def exTeamState : SState :=
  { clients := [], undelivered := [], groups := [("team", ["alice"])], disk := [] }

/-- A broadcast test state: group "team" has members alice, bob, carol,
dave; alice (the sender) and carol are online. -/
def exBcastState : SState :=
  { clients := ["alice", "carol"], undelivered := [], groups :=
      [("team", ["alice", "bob", "carol", "dave"])], disk := [] }

/-- A failure oracle under which writes to "carol" fail. -/
def failsCarol : String → Header → Bool := fun u _ => decide (u = "carol")

/-- An enqueue interleaving: two senders store for "bob" around an item
for "carol". -/
def exOps : List StoreOp :=
  [{ task := "Task-1", user := "bob",
     header := [("type", Val.s "msg"), ("text", Val.s "m1"), ("from", Val.s "alice")],
     payload := none },
   { task := "Task-1", user := "carol",
     header := [("type", Val.s "msg"), ("text", Val.s "m2"), ("from", Val.s "alice")],
     payload := none },
   { task := "Task-1", user := "bob",
     header := [("type", Val.s "msg"), ("text", Val.s "m3"), ("from", Val.s "dave")],
     payload := none }]

/-- A state where "bob" is online with an empty pending queue. -/
def exBobOnline : SState :=
  { clients := ["bob"], undelivered := [], groups := [], disk := [] }

end Chat

namespace Codec

/-!
Model of the frame codec: send_header (server.py lines 29-34) writes
struct.pack(">I", len(data)) + data where data = json.dumps(header) encoded
as UTF-8, and recv_header (lines 37-45) reads exactly 4 length bytes, then
exactly that many payload bytes, and json.loads them, returning None on any
failure.  json.dumps / json.loads are standard-library collaborators;
they are modelled here for the value shapes this program puts in headers
(strings, arbitrary-precision integers, arrays, string-keyed objects),
with the default dumps settings: ensure_ascii=True and separators
(", ", ": ").  The loads model is exact on everything dumps emits and is
a standard JSON reader elsewhere (it does not accept the literals
true/false/null or float syntax, which no header of this program
contains).
-/

mutual
/-- JSON values as produced by the client and server header dicts. -/
inductive JVal where
| str : String → JVal
| num : Int → JVal
| arr : JArr → JVal
| obj : JObj → JVal
inductive JArr where
| nil : JArr
| cons : JVal → JArr → JArr
inductive JObj where
| nil : JObj
| cons : String → JVal → JObj → JObj
end

/-- The backslash character. -/
def bsc : Char := Char.ofNat 92

/-- The double-quote character. -/
def quo : Char := Char.ofNat 34

/-- The opening curly bracket. -/
def lbc : Char := Char.ofNat 123

/-- The closing curly bracket. -/
def rbc : Char := Char.ofNat 125

/-- Lower-case hexadecimal digit, as %04x produces. -/
def hexDigChar (n : Nat) : Char :=
  if n < 10 then Char.ofNat (48 + n) else Char.ofNat (87 + n)

/-- Four lower-case hex digits, most significant first. -/
def hex4 (n : Nat) : List Char :=
  [hexDigChar (n / 4096 % 16), hexDigChar (n / 256 % 16),
   hexDigChar (n / 16 % 16), hexDigChar (n % 16)]

/-- json.dumps escaping of one character with ensure_ascii=True: the two
JSON specials and the five short control escapes, \u00xx for the other
control characters, printable ASCII verbatim, \uxxxx for other BMP
characters and a surrogate pair for supplementary characters. -/
def escChar (c : Char) : List Char :=
  let n := c.toNat
  if n = 34 then [bsc, quo]
  else if n = 92 then [bsc, bsc]
  else if n = 8 then [bsc, 'b']
  else if n = 9 then [bsc, 't']
  else if n = 10 then [bsc, 'n']
  else if n = 12 then [bsc, 'f']
  else if n = 13 then [bsc, 'r']
  else if n < 32 then bsc :: 'u' :: hex4 n
  else if n < 127 then [c]
  else if n < 65536 then bsc :: 'u' :: hex4 n
  else bsc :: 'u' :: hex4 (55296 + (n - 65536) / 1024) ++
       bsc :: 'u' :: hex4 (56320 + (n - 65536) % 1024)

/-- Escape a character sequence. -/
def escList (cs : List Char) : List Char := cs.flatMap escChar

/-- json.dumps of a string: a double-quoted escaped sequence. -/
def escStr (s : String) : List Char := quo :: escList s.data ++ [quo]

/-- The decimal digit character for d. -/
def digChar (d : Nat) : Char := Char.ofNat (48 + d)

/-- Decimal digits of n, most significant first, by repeated division
(fuel-structural so that it evaluates by reduction). -/
def natCharsAux : Nat → Nat → List Char
| 0, _ => []
| Nat.succ f, n => if n = 0 then [] else natCharsAux f (n / 10) ++ [digChar (n % 10)]

/-- str(n) for a natural number. -/
def natChars (n : Nat) : List Char := if n = 0 then ['0'] else natCharsAux n n

/-- str(i) for a Python int, as json.dumps emits it. -/
def intChars (i : Int) : List Char :=
  if i < 0 then '-' :: natChars i.natAbs else natChars i.toNat

mutual
/-- json.dumps with the default separators (", " between items, ": "
after keys), ensure_ascii=True. -/
def jDump : JVal → List Char
| JVal.str s => escStr s
| JVal.num i => intChars i
| JVal.arr a => '[' :: jDumpA a ++ [']']
| JVal.obj o => lbc :: jDumpO o ++ [rbc]
def jDumpA : JArr → List Char
| JArr.nil => []
| JArr.cons v rest =>
    jDump v ++ (match rest with | JArr.nil => [] | _ => [',', ' ']) ++ jDumpA rest
def jDumpO : JObj → List Char
| JObj.nil => []
| JObj.cons k v rest =>
    escStr k ++ ':' :: ' ' :: jDump v ++
    (match rest with | JObj.nil => [] | _ => [',', ' ']) ++ jDumpO rest
end

/-- JSON insignificant whitespace. -/
def isWs (c : Char) : Bool := c.toNat = 32 ∨ c.toNat = 9 ∨ c.toNat = 10 ∨ c.toNat = 13

/-- Skip insignificant whitespace. -/
def skipWs : List Char → List Char
| [] => []
| c :: cs => if isWs c then skipWs cs else c :: cs

/-- The value of a hexadecimal digit character. -/
def hexVal (c : Char) : Option Nat :=
  let n := c.toNat
  if 48 ≤ n ∧ n ≤ 57 then some (n - 48)
  else if 97 ≤ n ∧ n ≤ 102 then some (n - 87)
  else if 65 ≤ n ∧ n ≤ 70 then some (n - 55)
  else none

/-- Read exactly four hexadecimal digits. -/
def hex4Val : List Char → Option (Nat × List Char)
| h1 :: h2 :: h3 :: h4 :: rest =>
  match hexVal h1, hexVal h2, hexVal h3, hexVal h4 with
  | some x1, some x2, some x3, some x4 =>
      some (((x1 * 16 + x2) * 16 + x3) * 16 + x4, rest)
  | _, _, _, _ => none
| _ => none

/-- Read a backslash-u escape: four hex digits after the two marker
characters. -/
def surrPair : List Char → Option (Nat × List Char)
| s1 :: s2 :: rest => if s1.toNat = 92 ∧ s2 = 'u' then hex4Val rest else none
| _ => none

/-- Read a JSON string body after the opening quote: acc holds the
characters read so far in reverse, and the fuel argument (one unit per
produced character; the callers pass the input length plus one, which can
never run out since every step consumes at least one input character)
makes the recursion structural.  Surrogate pairs in backslash-u escapes
are recombined; a lone surrogate is rejected (Lean characters are Unicode
scalar values), and an unescaped control character is rejected as
json.loads does in strict mode. -/
def unStr : Nat → List Char → List Char → Option (List Char × List Char)
| 0, _, _ => none
| Nat.succ fuel, acc, input =>
  match input with
  | [] => none
  | c :: rest =>
    if c.toNat = 34 then some (acc.reverse, rest)
    else if c.toNat = 92 then
      match rest with
      | [] => none
      | e :: rest2 =>
        if e.toNat = 34 then unStr fuel (quo :: acc) rest2
        else if e.toNat = 92 then unStr fuel (bsc :: acc) rest2
        else if e = '/' then unStr fuel ('/' :: acc) rest2
        else if e = 'b' then unStr fuel (Char.ofNat 8 :: acc) rest2
        else if e = 'f' then unStr fuel (Char.ofNat 12 :: acc) rest2
        else if e = 'n' then unStr fuel (Char.ofNat 10 :: acc) rest2
        else if e = 'r' then unStr fuel (Char.ofNat 13 :: acc) rest2
        else if e = 't' then unStr fuel (Char.ofNat 9 :: acc) rest2
        else if e = 'u' then
          match hex4Val rest2 with
          | none => none
          | some (m, rest3) =>
            if m < 55296 ∨ 57344 ≤ m then unStr fuel (Char.ofNat m :: acc) rest3
            else if m < 56320 then
              match surrPair rest3 with
              | none => none
              | some (m2, rest5) =>
                if 56320 ≤ m2 ∧ m2 < 57344 then
                  unStr fuel
                    (Char.ofNat (65536 + (m - 55296) * 1024 + (m2 - 56320)) :: acc)
                    rest5
                else none
            else none
        else none
    else if 32 ≤ c.toNat then unStr fuel (c :: acc) rest
    else none

/-- The leading run of decimal digits (as digit values) and the rest. -/
def digRun : List Char → List Nat × List Char
| [] => ([], [])
| c :: rest =>
  if c.isDigit then
    let r := digRun rest
    ((c.toNat - 48) :: r.1, r.2)
  else ([], c :: rest)

/-- Read a nonempty digit run as a natural number. -/
def numRun (cs : List Char) : Option (Nat × List Char) :=
  match digRun cs with
  | ([], _) => none
  | (ds, rest) => some (ds.foldl (fun a d => 10 * a + d) 0, rest)

mutual
/-- Recursive-descent JSON reader (the model of json.loads), with a fuel
argument bounding the nesting of recursive calls; jParseA and jParseO read
the element list of a non-empty array / object up to and including the
closing bracket. -/
def jParse : Nat → List Char → Option (JVal × List Char)
| 0, _ => none
| Nat.succ fuel, input =>
  match skipWs input with
  | [] => none
  | c :: rest =>
    if c.toNat = 34 then
      match unStr (rest.length + 1) [] rest with
      | some (cs, r) => some (JVal.str (String.mk cs), r)
      | none => none
    else if c = '[' then
      match skipWs rest with
      | [] => none
      | d :: rest2 =>
        if d = ']' then some (JVal.arr JArr.nil, rest2)
        else
          match jParseA fuel (d :: rest2) with
          | some (a, r) => some (JVal.arr a, r)
          | none => none
    else if c.toNat = 123 then
      match skipWs rest with
      | [] => none
      | d :: rest2 =>
        if d.toNat = 125 then some (JVal.obj JObj.nil, rest2)
        else
          match jParseO fuel (d :: rest2) with
          | some (o, r) => some (JVal.obj o, r)
          | none => none
    else if c = '-' then
      match numRun rest with
      | some (n, r) => some (JVal.num (-(n : Int)), r)
      | none => none
    else if c.isDigit then
      match numRun (c :: rest) with
      | some (n, r) => some (JVal.num (n : Int), r)
      | none => none
    else none
def jParseA : Nat → List Char → Option (JArr × List Char)
| 0, _ => none
| Nat.succ fuel, input =>
  match jParse fuel input with
  | none => none
  | some (v, r) =>
    match skipWs r with
    | [] => none
    | c :: r2 =>
      if c = ',' then
        match jParseA fuel r2 with
        | some (a, r3) => some (JArr.cons v a, r3)
        | none => none
      else if c = ']' then some (JArr.cons v JArr.nil, r2)
      else none
def jParseO : Nat → List Char → Option (JObj × List Char)
| 0, _ => none
| Nat.succ fuel, input =>
  match skipWs input with
  | [] => none
  | c :: rest =>
    if c.toNat = 34 then
      match unStr (rest.length + 1) [] rest with
      | none => none
      | some (kcs, r) =>
        match skipWs r with
        | [] => none
        | d :: r2 =>
          if d = ':' then
            match jParse fuel r2 with
            | none => none
            | some (v, r3) =>
              match skipWs r3 with
              | [] => none
              | e :: r4 =>
                if e = ',' then
                  match jParseO fuel r4 with
                  | some (o, r5) => some (JObj.cons (String.mk kcs) v o, r5)
                  | none => none
                else if e.toNat = 125 then some (JObj.cons (String.mk kcs) v JObj.nil, r4)
                else none
          else none
    else none
end

mutual
/-- Fuel sufficient for jParse to read a dumped value. -/
def rfJ : JVal → Nat
| JVal.str _ => 1
| JVal.num _ => 1
| JVal.arr a => 1 + rfA a
| JVal.obj o => 1 + rfO o
def rfA : JArr → Nat
| JArr.nil => 1
| JArr.cons v rest => 1 + max (rfJ v) (rfA rest)
def rfO : JObj → Nat
| JObj.nil => 1
| JObj.cons _ v rest => 1 + max (rfJ v) (rfO rest)
end

/-- UTF-8 encoding of one character. -/
def utf8Char (c : Char) : List Nat :=
  let n := c.toNat
  if n < 128 then [n]
  else if n < 2048 then [192 + n / 64, 128 + n % 64]
  else if n < 65536 then [224 + n / 4096, 128 + n / 64 % 64, 128 + n % 64]
  else [240 + n / 262144, 128 + n / 4096 % 64, 128 + n / 64 % 64, 128 + n % 64]

/-- str.encode("utf-8"). -/
def utf8Encode (cs : List Char) : List Nat := cs.flatMap utf8Char

/-- One scalar of strict UTF-8 decoding: the code point read at the head
of the byte list and the remaining bytes.  Continuation bytes, overlong
forms, surrogates and out-of-range values are rejected. -/
def utf8Step : List Nat → Option (Nat × List Nat)
| [] => none
| b :: rest =>
  if b < 128 then some (b, rest)
  else if b < 192 then none
  else if b < 224 then
    match rest with
    | b2 :: rest2 =>
      if 128 ≤ b2 ∧ b2 < 192 then
        let n := (b - 192) * 64 + (b2 - 128)
        if 128 ≤ n then some (n, rest2) else none
      else none
    | [] => none
  else if b < 240 then
    match rest with
    | b2 :: b3 :: rest2 =>
      if (128 ≤ b2 ∧ b2 < 192) ∧ (128 ≤ b3 ∧ b3 < 192) then
        let n := (b - 224) * 4096 + (b2 - 128) * 64 + (b3 - 128)
        if 2048 ≤ n ∧ (n < 55296 ∨ 57344 ≤ n) then some (n, rest2) else none
      else none
    | _ => none
  else if b < 248 then
    match rest with
    | b2 :: b3 :: b4 :: rest2 =>
      if (128 ≤ b2 ∧ b2 < 192) ∧ (128 ≤ b3 ∧ b3 < 192) ∧ (128 ≤ b4 ∧ b4 < 192) then
        let n := (b - 240) * 262144 + (b2 - 128) * 4096 + (b3 - 128) * 64 + (b4 - 128)
        if 65536 ≤ n ∧ n < 1114112 then some (n, rest2) else none
      else none
    | _ => none
  else none

/-- bytes.decode("utf-8"), strict: one utf8Step per scalar.  The fuel
only bounds the number of scalars (each consumes at least one byte), so
any fuel above the byte count yields the decoding itself. -/
def utf8Decode : Nat → List Nat → Option (List Char)
| 0, _ => none
| _ + 1, [] => some []
| f + 1, b :: rest =>
  match utf8Step (b :: rest) with
  | some (n, rest2) => (utf8Decode f rest2).map (fun cs => Char.ofNat n :: cs)
  | none => none

/-- struct.pack(">I", n): the 4-byte big-endian encoding (defined for
n < 2^32; struct.error is raised above that, which the framing theorem
excludes by hypothesis). -/
def be32 (n : Nat) : List Nat :=
  [n / 16777216 % 256, n / 65536 % 256, n / 256 % 256, n % 256]

/-- struct.unpack(">I", bytes)[0]. -/
def be32val (b0 b1 b2 b3 : Nat) : Nat := ((b0 * 256 + b1) * 256 + b2) * 256 + b3

/-- send_header (server.py lines 29-34): the bytes written for a header,
json.dumps(header).encode("utf-8") prefixed by its 4-byte big-endian
length. -/
def sendHeaderBytes (v : JVal) : List Nat :=
  let data := utf8Encode (jDump v)
  be32 data.length ++ data

/-- recv_header (server.py lines 37-45) on a byte stream: read exactly 4
length bytes, then exactly that many payload bytes, and json.loads them
(json.loads skips surrounding whitespace and rejects trailing data);
any shortfall or decode error yields None.  Returns the header and the
unread remainder of the stream. -/
def recvHeaderBytes (stream : List Nat) : Option (JVal × List Nat) :=
  match stream with
  | b0 :: b1 :: b2 :: b3 :: rest =>
    let n := be32val b0 b1 b2 b3
    if rest.length < n then none
    else
      let data := rest.take n
      match utf8Decode (data.length + 1) data with
      | none => none
      | some cs =>
        match jParse (cs.length + 1) cs with
        | some (v, trail) =>
            if (skipWs trail).isEmpty then some (v, rest.drop n) else none
        | none => none
  | _ => none

end Codec

namespace Chat

/-! Association-list (Python dict) lemmas. -/

theorem alookup_aset_self {α : Type} (m : List (String × α)) (k : String) (v : α) :
    alookup (aset m k v) k = some v := by
  induction m with
  | nil => simp [aset, alookup]
  | cons p t ih =>
    obtain ⟨k0, w⟩ := p
    by_cases hk : k0 = k
    · simp [aset, hk, alookup]
    · simp [aset, hk, alookup, ih]

theorem alookup_aset_ne {α : Type} (m : List (String × α)) (k : String) (v : α)
    (k' : String) (h : k' ≠ k) : alookup (aset m k v) k' = alookup m k' := by
  induction m with
  | nil =>
    simp only [aset, alookup]
    rw [if_neg (fun he => h he.symm)]
  | cons p t ih =>
    obtain ⟨k0, w⟩ := p
    by_cases hk : k0 = k
    · subst hk
      simp only [aset, if_pos rfl, alookup]
      rw [if_neg (fun he => h he.symm), if_neg (fun he => h he.symm)]
    · simp [aset, hk, alookup, ih]

theorem alookup_eq_none_iff {α : Type} (m : List (String × α)) (k : String) :
    alookup m k = none ↔ k ∉ m.map Prod.fst := by
  induction m with
  | nil => simp [alookup]
  | cons p t ih =>
    obtain ⟨k0, w⟩ := p
    by_cases hk : k0 = k
    · simp [alookup, hk]
    · simp only [List.map_cons, List.mem_cons]
      rw [show alookup ((k0, w) :: t) k = alookup t k from by simp [alookup, hk]]
      rw [ih]
      constructor
      · rintro hnot (he | hm)
        · exact hk he.symm
        · exact hnot hm
      · exact fun hnot hm => hnot (Or.inr hm)

theorem alookup_aremove_self {α : Type} (m : List (String × α)) (k : String)
    (h : (m.map Prod.fst).Nodup) : alookup (aremove m k) k = none := by
  induction m with
  | nil => simp [aremove, alookup]
  | cons p t ih =>
    obtain ⟨k0, w⟩ := p
    simp only [List.map_cons, List.nodup_cons] at h
    by_cases hk : k0 = k
    · subst hk
      simpa [aremove, alookup_eq_none_iff] using h.1
    · simp [aremove, hk, alookup, ih h.2]

theorem uGet_uAppend_self (m : List (String × List Itm)) (u : String) (it : Itm) :
    uGet (uAppend m u it) u = uGet m u ++ [it] := by
  simp [uGet, uAppend, alookup_aset_self]

theorem uGet_uAppend_ne (m : List (String × List Itm)) (u : String) (it : Itm)
    (v : String) (h : v ≠ u) : uGet (uAppend m u it) v = uGet m v := by
  simp [uGet, uAppend, alookup_aset_ne _ _ _ _ h]

theorem hGet_hSet_self (h : Header) (k : String) (v : Val) :
    hGet (hSet h k v) k = some v := alookup_aset_self h k v

theorem hGet_hSet_ne (h : Header) (k : String) (v : Val) (k' : String)
    (hk : k' ≠ k) : hGet (hSet h k v) k' = hGet h k' := alookup_aset_ne h k v k' hk

/-! store_undelivered lemmas. -/

theorem store_clients (t : String) (st : SState) (u : String) (h : Header)
    (b : Option Bytes) : (store_undelivered t st u h b).1.clients = st.clients := by
  cases b with
  | none => rfl
  | some bs =>
    by_cases hp : hGet h "type" = some (Val.s "file")
    · simp [store_undelivered, hp]
    · simp [store_undelivered, hp]

theorem store_groups (t : String) (st : SState) (u : String) (h : Header)
    (b : Option Bytes) : (store_undelivered t st u h b).1.groups = st.groups := by
  cases b with
  | none => rfl
  | some bs =>
    by_cases hp : hGet h "type" = some (Val.s "file")
    · simp [store_undelivered, hp]
    · simp [store_undelivered, hp]

theorem store_queue_self (t : String) (st : SState) (u : String) (h : Header)
    (b : Option Bytes) :
    uGet (store_undelivered t st u h b).1.undelivered u
      = uGet st.undelivered u ++ [storedItem t u h b] := by
  cases b with
  | none => simp [store_undelivered, storedItem, uGet_uAppend_self]
  | some bs =>
    by_cases hp : hGet h "type" = some (Val.s "file")
    · simp [store_undelivered, storedItem, hp, uGet_uAppend_self]
    · simp [store_undelivered, storedItem, hp, uGet_uAppend_self]

theorem store_queue_ne (t : String) (st : SState) (u : String) (h : Header)
    (b : Option Bytes) (v : String) (hv : v ≠ u) :
    uGet (store_undelivered t st u h b).1.undelivered v = uGet st.undelivered v := by
  cases b with
  | none => simp [store_undelivered, uGet_uAppend_ne _ _ _ _ hv]
  | some bs =>
    by_cases hp : hGet h "type" = some (Val.s "file")
    · simp [store_undelivered, hp, uGet_uAppend_ne _ _ _ _ hv]
    · simp [store_undelivered, hp, uGet_uAppend_ne _ _ _ _ hv]

theorem store_evs_eq (t : String) (st : SState) (u : String) (h : Header)
    (b : Option Bytes) : (store_undelivered t st u h b).2 = storeEvs t u h b := by
  cases b with
  | none => rfl
  | some bs =>
    by_cases hp : hGet h "type" = some (Val.s "file")
    · simp [store_undelivered, storeEvs, hp]
    · simp [store_undelivered, storeEvs, hp]

theorem storedItem_none (t : String) (u : String) (h : Header) :
    storedItem t u h none = (h, none) := rfl

theorem storeEvs_silent (t : String) (u : String) (h : Header) (b : Option Bytes) :
    ∀ e ∈ storeEvs t u h b,
      isReplyEv e = false ∧ isClosedEv e = false ∧ isSentEv e = false := by
  intro e he
  cases b with
  | none => simp [storeEvs] at he; subst he; exact ⟨rfl, rfl, rfl⟩
  | some bs =>
    by_cases hp : hGet h "type" = some (Val.s "file")
    · simp [storeEvs, hp] at he
      rcases he with he | he <;> subst he <;> exact ⟨rfl, rfl, rfl⟩
    · simp [storeEvs, hp] at he; subst he; exact ⟨rfl, rfl, rfl⟩

theorem count_attempt_storeEvs (t : String) (u : String) (h : Header)
    (b : Option Bytes) : (storeEvs t u h b).countP isSendAttemptEv = 0 := by
  cases b with
  | none => rfl
  | some bs =>
    by_cases hp : hGet h "type" = some (Val.s "file")
    · simp [storeEvs, hp, List.countP, List.countP.go, isSendAttemptEv]
    · simp [storeEvs, hp, List.countP, List.countP.go, isSendAttemptEv]

theorem count_enq_storeEvs (t : String) (u : String) (h : Header)
    (b : Option Bytes) : (storeEvs t u h b).countP isEnqEv = 1 := by
  cases b with
  | none => rfl
  | some bs =>
    by_cases hp : hGet h "type" = some (Val.s "file")
    · simp [storeEvs, hp, List.countP, List.countP.go, isEnqEv]
    · simp [storeEvs, hp, List.countP, List.countP.go, isEnqEv]

theorem enq_mem_storeEvs (t : String) (u : String) (h : Header) (b : Option Bytes) :
    Ev.enqueued u (storedItem t u h b).1 (storedItem t u h b).2 ∈ storeEvs t u h b := by
  cases b with
  | none => simp [storeEvs, storedItem]
  | some bs =>
    by_cases hp : hGet h "type" = some (Val.s "file")
    · simp [storeEvs, storedItem, hp]
    · simp [storeEvs, storedItem, hp]

theorem evUser_storeEvs (t : String) (u : String) (h : Header) (b : Option Bytes) :
    ∀ e ∈ storeEvs t u h b, evUser e = some u ∨ evUser e = none := by
  intro e he
  cases b with
  | none => simp [storeEvs] at he; subst he; left; rfl
  | some bs =>
    by_cases hp : hGet h "type" = some (Val.s "file")
    · simp [storeEvs, hp] at he
      rcases he with he | he <;> subst he
      · right; rfl
      · left; rfl
    · simp [storeEvs, hp] at he; subst he; left; rfl

/-! deliver_to_user lemmas. -/

theorem deliver_clients (f : String → Header → Bool) (t : String) (st : SState)
    (u : String) (h : Header) (b : Option Bytes) :
    (deliver_to_user f t st u h b).1.clients = st.clients := by
  unfold deliver_to_user
  by_cases hm : u ∈ st.clients
  · by_cases hf : f u h
    · simp [hm, hf, store_clients]
    · simp [hm, hf]
  · simp [hm, store_clients]

theorem deliver_evs_eq (f : String → Header → Bool) (t : String) (st : SState)
    (u : String) (h : Header) (b : Option Bytes) :
    (deliver_to_user f t st u h b).2 = deliverEvs f t st.clients u h b := by
  unfold deliver_to_user deliverEvs
  by_cases hm : u ∈ st.clients
  · by_cases hf : f u h
    · simp [hm, hf, store_evs_eq]
    · simp [hm, hf]
  · simp [hm, store_evs_eq]

/-! Drain-loop lemmas. -/

theorem drainPlain_eq (f : String → Header → Bool) (u : String) (st : SState)
    (it : Itm) :
    drainPlain f u st it
      = (st, [if f u it.1 = true then Ev.sendFailed u it.1 else Ev.sent u it.1 it.2]) := by
  unfold drainPlain
  by_cases hf : f u it.1 <;> simp [hf]

theorem drainStep_plain (f : String → Header → Bool) (u : String) (st : SState)
    (it : Itm) (hop : hGet it.1 "offline_path" = none) :
    drainStep f u st it
      = (st, [if f u it.1 = true then Ev.sendFailed u it.1 else Ev.sent u it.1 it.2]) := by
  unfold drainStep
  rw [hop, drainPlain_eq]

theorem drainStep_fields (f : String → Header → Bool) (u : String) (st : SState)
    (it : Itm) :
    (drainStep f u st it).1.undelivered = st.undelivered
    ∧ (drainStep f u st it).1.clients = st.clients
    ∧ (drainStep f u st it).1.groups = st.groups
    ∧ (drainStep f u st it).2.length = 1 := by
  unfold drainStep
  rcases hop : hGet it.1 "offline_path" with _ | v
  · rw [drainPlain_eq]; exact ⟨rfl, rfl, rfl, rfl⟩
  · rcases v with s | n
    · by_cases hs : s = ""
      · simp only [hs, if_pos rfl]
        rw [drainPlain_eq]; exact ⟨rfl, rfl, rfl, rfl⟩
      · simp only [if_neg hs]
        rcases hd : alookup st.disk s with _ | buf
        · exact ⟨rfl, rfl, rfl, rfl⟩
        · by_cases hf : f u (hSet (hPop it.1 "offline_path") "filesize" (Val.n buf.length))
          · simp [if_pos hf]
          · simp [if_neg hf]
    · rw [drainPlain_eq]; exact ⟨rfl, rfl, rfl, rfl⟩

theorem drainFold_fields (f : String → Header → Bool) (u : String) :
    ∀ (items : List Itm) (st : SState) (evs0 : List Ev),
      (drainFold f u items st evs0).1.undelivered = st.undelivered
      ∧ (drainFold f u items st evs0).1.clients = st.clients
      ∧ (drainFold f u items st evs0).2.length = evs0.length + items.length := by
  intro items
  induction items with
  | nil => intro st evs0; exact ⟨rfl, rfl, by simp [drainFold]⟩
  | cons it t ih =>
    intro st evs0
    have hstep := drainStep_fields f u st it
    have hfold : drainFold f u (it :: t) st evs0
        = drainFold f u t (drainStep f u st it).1 (evs0 ++ (drainStep f u st it).2) := rfl
    rw [hfold]
    obtain ⟨ihu, ihc, ihl⟩ := ih (drainStep f u st it).1 (evs0 ++ (drainStep f u st it).2)
    refine ⟨ihu.trans hstep.1, ihc.trans hstep.2.1, ?_⟩
    rw [ihl, List.length_append, hstep.2.2.2]
    simp [Nat.add_assoc, Nat.add_comm 1 t.length]

theorem drainFold_plain (f : String → Header → Bool) (u : String) :
    ∀ (items : List Itm) (st : SState) (evs0 : List Ev),
      (∀ it ∈ items, hGet it.1 "offline_path" = none) →
      drainFold f u items st evs0
        = (st, evs0 ++ items.map
            (fun it => if f u it.1 = true then Ev.sendFailed u it.1
                       else Ev.sent u it.1 it.2)) := by
  intro items
  induction items with
  | nil => intro st evs0 _; simp [drainFold]
  | cons it t ih =>
    intro st evs0 hall
    have hfold : drainFold f u (it :: t) st evs0
        = drainFold f u t (drainStep f u st it).1 (evs0 ++ (drainStep f u st it).2) := rfl
    rw [hfold, drainStep_plain f u st it (hall it (List.mem_cons_self it t))]
    rw [ih _ _ (fun x hx => hall x (List.mem_cons_of_mem it hx))]
    simp

theorem hu_run (f : String → Header → Bool) (st : SState) (u : String)
    (h1 : u ∈ st.clients) (h2 : uGet st.undelivered u ≠ []) :
    handle_undelivered f st u
      = ({ (drainFold f u (uGet st.undelivered u) st []).1 with
            undelivered :=
              aremove (drainFold f u (uGet st.undelivered u) st []).1.undelivered u },
         (drainFold f u (uGet st.undelivered u) st []).2) := by
  unfold handle_undelivered
  rw [if_neg (by simpa [List.isEmpty_iff] using h2), if_pos h1]

/-- C1.  The code's behaviour on a duplicate registration attempt, at the
concrete failing input: with "alice" registered, a second connection
authenticating as "alice" is answered with error username_taken and
closed - but the finally-block cleanup of handle_client then executes
clients.pop("alice"), removing the existing session's registry entry,
so the claim's "registry entry for u unchanged" is violated (the spec is
the evident intent; the shared cleanup also firing for the rejected
duplicate is the slip). -/
theorem C1_duplicate_auth_pops_existing_registration :
    authStep noFails exAliceOnline "alice"
      = ({ clients := [], undelivered := [], groups := [], disk := [] },
         [Ev.reply (errHeader "username_taken"), Ev.closed])
    ∧ "alice" ∉ (authStep noFails exAliceOnline "alice").1.clients := by decide

/-- C2, counterexample.  With "bob" online and two plain items pending,
where delivery of the first fails: the drain still clears the whole
queue, so the failed item is NOT left enqueued for a later drain attempt,
contradicting the claim. -/
theorem C2_counterexample_failed_item_discarded :
    (handle_undelivered failsTextA exC2State "bob").2
        = [Ev.sendFailed "bob" [("type", Val.s "msg"), ("text", Val.s "a")],
           Ev.sent "bob" [("type", Val.s "msg"), ("text", Val.s "b")] none]
    ∧ (handle_undelivered failsTextA exC2State "bob").1.undelivered = [] := by decide

/-- C2, amended.  If delivering an item fails during a drain on u's
reconnection, the per-item exception is caught and the drain continues
with the remaining items (exactly one delivery attempt per pending item),
and afterwards the whole queue entry for u is removed unconditionally:
failed items are discarded, not re-enqueued for a later drain attempt. -/
theorem C2_amended_drain_discards_failures (f : String → Header → Bool)
    (st : SState) (u : String)
    (hnd : (st.undelivered.map Prod.fst).Nodup)
    (h1 : u ∈ st.clients) (h2 : uGet st.undelivered u ≠ []) :
    alookup (handle_undelivered f st u).1.undelivered u = none
    ∧ (handle_undelivered f st u).2.length = (uGet st.undelivered u).length := by
  rw [hu_run f st u h1 h2]
  obtain ⟨hund, _, hlen⟩ := drainFold_fields f u (uGet st.undelivered u) st []
  constructor
  · simp only [hund]
    exact alookup_aremove_self st.undelivered u hnd
  · simpa using hlen

/-- C2, witness for the amended theorem at a concrete state. -/
theorem C2_amended_witness :
    alookup (handle_undelivered failsTextA exC2State "bob").1.undelivered "bob" = none
    ∧ (handle_undelivered failsTextA exC2State "bob").2.length = 2 := by
  have h := C2_amended_drain_discards_failures failsTextA exC2State "bob"
    (by decide) (by decide) (by decide)
  exact ⟨h.1, h.2.trans (by decide)⟩

/-- C6.  add_to_group by a requester who is not a member of g (in
particular when g does not exist, since members of an unknown group are
the empty set) is rejected with an error reply; the state - and so the
whole group directory - is returned unchanged, no group is created, and
no close event occurs (the handler continues its loop). -/
theorem C6_add_to_group_requires_membership (st : SState) (u g b : String)
    (h : u ∉ gGet st.groups g) :
    handleAddToGroup st u g b
      = (st, [Ev.reply (errHeader
          ("Você não tem permissão para adicionar usuários ao grupo \x27"
            ++ g ++ "\x27."))]) := by
  unfold handleAddToGroup
  rw [if_pos (Or.inr h)]

/-- C6, witness: "bobby" (not a member) tries to add "carol" to "team". -/
theorem C6_witness :
    handleAddToGroup exTeamState "bobby" "team" "carol"
      = (exTeamState, [Ev.reply (errHeader
          ("Você não tem permissão para adicionar usuários ao grupo \x27"
            ++ "team" ++ "\x27."))]) :=
  C6_add_to_group_requires_membership exTeamState "bobby" "team" "carol" (by decide)

/-- C8.  A transport write failure to a registered user is recovered
locally: the item is enqueued (via store_undelivered, so a file payload
becomes a storage reference) at the tail of that user's offline queue,
the only events are the caught failure and the store's own, and no reply
or close ever reaches any connection - nothing is surfaced to the
sender. -/
theorem C8_write_failure_recovered_offline (f : String → Header → Bool)
    (t : String) (st : SState) (u : String) (h : Header) (b : Option Bytes)
    (h1 : u ∈ st.clients) (h2 : f u h = true) :
    uGet (deliver_to_user f t st u h b).1.undelivered u
        = uGet st.undelivered u ++ [storedItem t u h b]
    ∧ (deliver_to_user f t st u h b).2 = Ev.sendFailed u h :: storeEvs t u h b
    ∧ ∀ e ∈ (deliver_to_user f t st u h b).2,
        isReplyEv e = false ∧ isClosedEv e = false := by
  have hun : deliver_to_user f t st u h b
      = ((store_undelivered t st u h b).1,
         Ev.sendFailed u h :: (store_undelivered t st u h b).2) := by
    unfold deliver_to_user
    simp [h1, h2]
  refine ⟨?_, ?_, ?_⟩
  · rw [hun]; exact store_queue_self t st u h b
  · rw [hun, store_evs_eq]
  · rw [hun]
    intro e he
    rcases List.mem_cons.mp he with rfl | hm
    · exact ⟨rfl, rfl⟩
    · rw [store_evs_eq] at hm
      exact ⟨(storeEvs_silent t u h b e hm).1, (storeEvs_silent t u h b e hm).2.1⟩

/-- C8, witness: a failing write to online "bob" enqueues the item. -/
theorem C8_witness :
    uGet (deliver_to_user failsTextA "Task-1" exBobOnline "bob"
        [("type", Val.s "msg"), ("text", Val.s "a")] none).1.undelivered "bob"
      = [([("type", Val.s "msg"), ("text", Val.s "a")], none)]
    ∧ (deliver_to_user failsTextA "Task-1" exBobOnline "bob"
        [("type", Val.s "msg"), ("text", Val.s "a")] none).2
      = [Ev.sendFailed "bob" [("type", Val.s "msg"), ("text", Val.s "a")],
         Ev.enqueued "bob" [("type", Val.s "msg"), ("text", Val.s "a")] none] := by
  have h := C8_write_failure_recovered_offline failsTextA "Task-1" exBobOnline "bob"
    [("type", Val.s "msg"), ("text", Val.s "a")] none (by decide) (by decide)
  exact ⟨h.1.trans (by decide), h.2.1.trans (by decide)⟩

/-- C10.  Dispatching a user-target message whose recipient is not in the
session registry - any username at all, there is no existence check -
appends the stamped item to that username's offline queue, produces no
reply, no close, and no transport write whatsoever (the sender hears
nothing), and leaves the registry unchanged; each further such dispatch
appends one more item, so the queue grows without bound. -/
theorem C10_unknown_recipient_silent_enqueue (f : String → Header → Bool)
    (dtask : String) (gtask : String → String) (st : SState) (h : Header)
    (b : Option Bytes) (origin name : String)
    (hoff : name ∉ st.clients) :
    uGet (dispatch f dtask gtask st h b origin (Target.user name)).1.undelivered name
        = uGet st.undelivered name
          ++ [storedItem dtask name (hSet h "from" (Val.s origin)) b]
    ∧ (dispatch f dtask gtask st h b origin (Target.user name)).2
        = storeEvs dtask name (hSet h "from" (Val.s origin)) b
    ∧ (∀ e ∈ (dispatch f dtask gtask st h b origin (Target.user name)).2,
        isReplyEv e = false ∧ isClosedEv e = false ∧ isSentEv e = false)
    ∧ (dispatch f dtask gtask st h b origin (Target.user name)).1.clients
        = st.clients := by
  have hun : dispatch f dtask gtask st h b origin (Target.user name)
      = store_undelivered dtask st name (hSet h "from" (Val.s origin)) b := by
    unfold dispatch deliver_to_user
    simp [hoff]
  refine ⟨?_, ?_, ?_, ?_⟩
  · rw [hun]; exact store_queue_self _ _ _ _ _
  · rw [hun]; exact store_evs_eq _ _ _ _ _
  · rw [hun, store_evs_eq]
    exact storeEvs_silent _ _ _ _
  · rw [hun]; exact store_clients _ _ _ _ _

/-- C10, witness: a message to the never-connected "ghost" is silently
queued under "ghost". -/
theorem C10_witness :
    uGet (dispatch noFails "Task-1" (fun _ => "Task-2") exTeamState
        [("type", Val.s "msg"), ("to", Val.s "ghost"), ("text", Val.s "hi")] none
        "alice" (Target.user "ghost")).1.undelivered "ghost"
      = [([("type", Val.s "msg"), ("to", Val.s "ghost"), ("text", Val.s "hi"),
           ("from", Val.s "alice")], none)]
    ∧ (dispatch noFails "Task-1" (fun _ => "Task-2") exTeamState
        [("type", Val.s "msg"), ("to", Val.s "ghost"), ("text", Val.s "hi")] none
        "alice" (Target.user "ghost")).2
      = [Ev.enqueued "ghost"
          [("type", Val.s "msg"), ("to", Val.s "ghost"), ("text", Val.s "hi"),
           ("from", Val.s "alice")] none] := by
  have h := C10_unknown_recipient_silent_enqueue noFails "Task-1" (fun _ => "Task-2")
    exTeamState [("type", Val.s "msg"), ("to", Val.s "ghost"), ("text", Val.s "hi")]
    none "alice" "ghost" (by decide)
  exact ⟨h.1.trans (by decide), h.2.1.trans (by decide)⟩

/-! applyStores lemmas. -/

theorem applyStores_step (op : StoreOp) (t : List StoreOp) (st : SState) :
    applyStores (op :: t) st
      = applyStores t (store_undelivered op.task st op.user op.header op.payload).1 := rfl

theorem applyStores_clients : ∀ (ops : List StoreOp) (st : SState),
    (applyStores ops st).clients = st.clients := by
  intro ops
  induction ops with
  | nil => intro st; rfl
  | cons op t ih =>
    intro st
    rw [applyStores_step, ih, store_clients]

theorem applyStores_queue : ∀ (ops : List StoreOp) (st : SState) (u : String),
    uGet (applyStores ops st).undelivered u
      = uGet st.undelivered u
        ++ (ops.filter (fun op => op.user = u)).map
            (fun op => storedItem op.task op.user op.header op.payload) := by
  intro ops
  induction ops with
  | nil => intro st u; simp [applyStores]
  | cons op t ih =>
    intro st u
    obtain ⟨t0, u0, h0, p0⟩ := op
    rw [applyStores_step, ih]
    by_cases hu : u0 = u
    · subst hu
      rw [store_queue_self]
      simp [List.filter_cons]
    · rw [store_queue_ne _ _ _ _ _ u (fun he => hu he.symm)]
      simp [List.filter_cons, hu]

theorem hu_empty (f : String → Header → Bool) (st : SState) (u : String)
    (h : uGet st.undelivered u = []) : handle_undelivered f st u = (st, []) := by
  unfold handle_undelivered
  rw [h]
  rfl

/-- C7.  Per-recipient FIFO: for any interleaving ops of message enqueues
by any senders (each with an inline item: no payload and no storage
reference, as store_undelivered produces for every msg frame), the store
appends each of u's items at the tail, so u's queue lists exactly u's
items in enqueue order, and the drain on u's reconnection (no transport
failures) delivers exactly that sequence in that order. -/
theorem C7_offline_fifo_per_recipient (ops : List StoreOp) (st : SState) (u : String)
    (h0 : uGet st.undelivered u = [])
    (h1 : u ∈ st.clients)
    (h2 : ∀ op ∈ ops, op.payload = none ∧ hGet op.header "offline_path" = none) :
    uGet (applyStores ops st).undelivered u
      = (ops.filter (fun op => op.user = u)).map (fun op => ((op.header, none) : Itm))
    ∧ (handle_undelivered noFails (applyStores ops st) u).2
      = (ops.filter (fun op => op.user = u)).map
          (fun op => Ev.sent u op.header none) := by
  have hq : uGet (applyStores ops st).undelivered u
      = (ops.filter (fun op => op.user = u)).map (fun op => ((op.header, none) : Itm)) := by
    rw [applyStores_queue, h0, List.nil_append]
    apply List.map_congr_left
    intro op hop
    rw [(h2 op (List.mem_of_mem_filter hop)).1, storedItem_none]
  refine ⟨hq, ?_⟩
  rcases hnil : ops.filter (fun op => op.user = u) with _ | ⟨op0, t0⟩
  · rw [hu_empty _ _ _ (by rw [hq, hnil]; rfl), hnil]
    rfl
  · have hne : uGet (applyStores ops st).undelivered u ≠ [] := by
      rw [hq, hnil]; simp
    rw [hu_run _ _ _ (by rw [applyStores_clients]; exact h1) hne, hq]
    rw [drainFold_plain noFails u _ _ _ ?hall]
    case hall =>
      intro it hit
      obtain ⟨op, hop, hope⟩ := List.mem_map.mp hit
      rw [← hope]
      exact (h2 op (List.mem_of_mem_filter hop)).2
    rw [List.nil_append, List.map_map]
    apply List.map_congr_left
    intro op hop
    simp [noFails]

/-- C7, witness: two senders interleave three messages; "bob" receives
his two in enqueue order. -/
theorem C7_witness :
    uGet (applyStores exOps exBobOnline).undelivered "bob"
      = [([("type", Val.s "msg"), ("text", Val.s "m1"), ("from", Val.s "alice")], none),
         ([("type", Val.s "msg"), ("text", Val.s "m3"), ("from", Val.s "dave")], none)]
    ∧ (handle_undelivered noFails (applyStores exOps exBobOnline) "bob").2
      = [Ev.sent "bob" [("type", Val.s "msg"), ("text", Val.s "m1"), ("from", Val.s "alice")] none,
         Ev.sent "bob" [("type", Val.s "msg"), ("text", Val.s "m3"), ("from", Val.s "dave")] none] := by
  have h := C7_offline_fifo_per_recipient exOps exBobOnline "bob"
    (by decide) (by decide) (by decide)
  exact ⟨h.1.trans (by decide), h.2.trans (by decide)⟩

/-! Auth-stage lemmas for the redelivery scenario. -/

theorem authStep_fresh (f : String → Header → Bool) (st : SState) (u : String)
    (hmem : u ∉ st.clients) :
    authStep f st u
      = ((handle_undelivered f { st with clients := st.clients ++ [u] } u).1,
         Ev.reply (infoHeader "auth_ok")
           :: (handle_undelivered f { st with clients := st.clients ++ [u] } u).2) := by
  unfold authStep
  rw [if_neg hmem]

/-- C4, counterexample.  The concrete scenario: alice sends a msg frame to
offline bob; bob reconnects and the drain delivers the pending header -
whose type is still "msg" (with "from" stamped), not "deliver_msg" as the
claim asserts. -/
theorem C4_counterexample_type_not_rewritten :
    exC4Session.2 = [Ev.reply (infoHeader "auth_ok"), Ev.sent "bob" exMsgStamped none]
    ∧ hGet exMsgStamped "type" = some (Val.s "msg")
    ∧ hGet exMsgStamped "type" ≠ some (Val.s "deliver_msg") := by decide

/-- C4, amended.  A msg-type frame dispatched to an offline user u is
enqueued and, on u's reconnection, delivered during the auth stage -
immediately after the auth_ok reply and before the handler reads any
further frame - with its type still "msg", "from" stamped with the
sender's username, and the text unchanged. -/
theorem C4_amended_offline_msg_redelivered (st : SState) (hm : Header)
    (u origin dtask : String) (gtask : String → String)
    (h0 : u ∉ st.clients)
    (h1 : uGet st.undelivered u = [])
    (h2 : hGet hm "type" = some (Val.s "msg"))
    (h3 : hGet hm "offline_path" = none) :
    (authStep noFails (dispatch noFails dtask gtask st hm none origin
        (Target.user u)).1 u).2
      = [Ev.reply (infoHeader "auth_ok"),
         Ev.sent u (hSet hm "from" (Val.s origin)) none]
    ∧ hGet (hSet hm "from" (Val.s origin)) "type" = some (Val.s "msg")
    ∧ hGet (hSet hm "from" (Val.s origin)) "from" = some (Val.s origin)
    ∧ hGet (hSet hm "from" (Val.s origin)) "text" = hGet hm "text" := by
  have hdisp : dispatch noFails dtask gtask st hm none origin (Target.user u)
      = store_undelivered dtask st u (hSet hm "from" (Val.s origin)) none := by
    unfold dispatch deliver_to_user
    simp [h0]
  have hofp : hGet (hSet hm "from" (Val.s origin)) "offline_path" = none := by
    rw [hGet_hSet_ne _ _ _ _ (by decide)]
    exact h3
  refine ⟨?_, ?_, hGet_hSet_self _ _ _, hGet_hSet_ne _ _ _ _ (by decide)⟩
  · rw [hdisp]
    set st1 := (store_undelivered dtask st u (hSet hm "from" (Val.s origin)) none).1
      with hst1
    have hc1 : st1.clients = st.clients := store_clients _ _ _ _ _
    have hq1 : uGet st1.undelivered u = [(hSet hm "from" (Val.s origin), none)] := by
      rw [hst1, store_queue_self, h1, storedItem_none, List.nil_append]
    have hmem : u ∉ st1.clients := by rw [hc1]; exact h0
    rw [authStep_fresh noFails st1 u hmem]
    have hq2 : uGet ({ st1 with clients := st1.clients ++ [u] } : SState).undelivered u
        = [(hSet hm "from" (Val.s origin), none)] := hq1
    have hm2 : u ∈ ({ st1 with clients := st1.clients ++ [u] } : SState).clients :=
      List.mem_append_right _ (List.mem_singleton.mpr rfl)
    rw [hu_run noFails _ u hm2 (by rw [hq2]; simp), hq2]
    rw [drainFold_plain noFails u _ _ _ (by
      intro it hit
      rw [List.mem_singleton.mp hit]
      exact hofp)]
    simp [noFails]
  · rw [hGet_hSet_ne _ _ _ _ (by decide)]
    exact h2

/-- C4, witness for the amended theorem: the concrete scenario run. -/
theorem C4_amended_witness :
    exC4Session.2
      = [Ev.reply (infoHeader "auth_ok"),
         Ev.sent "bob" (hSet exMsgHeader "from" (Val.s "alice")) none] :=
  (C4_amended_offline_msg_redelivered exAliceOnline exMsgHeader "bob" "alice"
    "Task-1" (fun _ => "Task-2") (by decide) (by decide) (by decide) (by decide)).1

/-- C5, counterexample.  Two user-target offline file sends to "bob" with
the same declared filename are both stored by the single dispatcher task
(whose asyncio task name is fixed, here "Task-1"), so both pending items
carry the SAME spool path - contradicting "two pending items never share
a spool path" - and the second spool write overwrote the first payload. -/
theorem C5_counterexample_spool_path_collision :
    (uGet exC5Send2.1.undelivered "bob").map (fun it => hGet it.1 "offline_path")
      = [some (Val.s "server_storage/bob_Task-1_a.txt"),
         some (Val.s "server_storage/bob_Task-1_a.txt")]
    ∧ (uGet exC5Send2.1.undelivered "bob").length = 2
    ∧ alookup exC5Send2.1.disk "server_storage/bob_Task-1_a.txt" = some [9, 9, 9] := by
  decide

/-- C5, amended.  An offline file enqueue spools the payload to the path
STORAGE_DIR/username_task_filename - determined by the recipient username,
the name of the asyncio task performing the store, and the declared
filename - and enqueues a header carrying the storage reference
offline_path with no inline bytes.  The path is unique only as far as
that triple is: enqueues sharing recipient, task name and filename (as
any two user-target file dispatches to the same recipient with the same
filename do, since the single dispatcher task runs them all) share the
spool path. -/
theorem C5_amended_spool_reference (task : String) (st : SState) (u : String)
    (hm : Header) (bs : Bytes)
    (htype : hGet hm "type" = some (Val.s "file")) :
    (store_undelivered task st u hm (some bs)).1.disk
      = aset st.disk (spoolPath u task (fnameOf hm)) bs
    ∧ uGet (store_undelivered task st u hm (some bs)).1.undelivered u
      = uGet st.undelivered u
        ++ [(hSet hm "offline_path" (Val.s (spoolPath u task (fnameOf hm))), none)]
    ∧ (store_undelivered task st u hm (some bs)).2
      = [Ev.spooled (spoolPath u task (fnameOf hm)) bs,
         Ev.enqueued u (hSet hm "offline_path"
            (Val.s (spoolPath u task (fnameOf hm)))) none]
    ∧ spoolPath u task (fnameOf hm)
      = STORAGE_DIR ++ "/" ++ u ++ "_" ++ task ++ "_" ++ fnameOf hm := by
  refine ⟨?_, ?_, ?_, rfl⟩
  · simp [store_undelivered, htype]
  · rw [store_queue_self]
    simp [storedItem, htype]
  · simp [store_undelivered, htype]

/-- C5, witness for the amended theorem at a concrete store. -/
theorem C5_amended_witness :
    uGet (store_undelivered "Task-9" exTeamState "bob" exFileHeader
        (some [5])).1.undelivered "bob"
      = [(exFileHeader ++ [("offline_path", Val.s "server_storage/bob_Task-9_a.txt")],
          none)]
    ∧ (store_undelivered "Task-9" exTeamState "bob" exFileHeader (some [5])).1.disk
      = [("server_storage/bob_Task-9_a.txt", [5])] := by
  have h := C5_amended_spool_reference "Task-9" exTeamState "bob" exFileHeader [5]
    (by decide)
  exact ⟨h.2.1.trans (by decide), h.1.trans (by decide)⟩

/-! broadcast_group lemmas. -/

theorem bgStep_skip {f : String → Header → Bool} {gtask : String → String}
    {h : Header} {fb : Option Bytes} {sender : Option Val}
    {acc : SState × List Ev} {m : String} (hm : some (Val.s m) = sender) :
    bgStep f gtask h fb sender acc m = acc := by
  unfold bgStep
  rw [if_pos hm]

theorem bgStep_deliver {f : String → Header → Bool} {gtask : String → String}
    {h : Header} {fb : Option Bytes} {sender : Option Val}
    {acc : SState × List Ev} {m : String} (hm : ¬some (Val.s m) = sender) :
    bgStep f gtask h fb sender acc m
      = ((deliver_to_user f (gtask m) acc.1 m h fb).1,
         acc.2 ++ (deliver_to_user f (gtask m) acc.1 m h fb).2) := by
  unfold bgStep
  rw [if_neg hm]

theorem bgFold_all (f : String → Header → Bool) (gtask : String → String)
    (h : Header) (fb : Option Bytes) (sender : Option Val) (c : List String) :
    ∀ (members : List String) (st : SState) (evs0 : List Ev), st.clients = c →
      (members.foldl (bgStep f gtask h fb sender) (st, evs0)).1.clients = c
      ∧ (members.foldl (bgStep f gtask h fb sender) (st, evs0)).2
          = evs0 ++ members.flatMap (fun m =>
              if some (Val.s m) = sender then []
              else deliverEvs f (gtask m) c m h fb) := by
  intro members
  induction members with
  | nil => intro st evs0 hc; exact ⟨hc, by simp⟩
  | cons m t ih =>
    intro st evs0 hc
    rw [List.foldl_cons]
    by_cases hm : some (Val.s m) = sender
    · rw [bgStep_skip hm]
      obtain ⟨ih1, ih2⟩ := ih st evs0 hc
      refine ⟨ih1, ?_⟩
      rw [ih2, List.flatMap_cons, if_pos hm, List.nil_append]
    · rw [bgStep_deliver hm]
      have hc1 : (deliver_to_user f (gtask m) st m h fb).1.clients = c := by
        rw [deliver_clients]; exact hc
      have he : (deliver_to_user f (gtask m) st m h fb).2
          = deliverEvs f (gtask m) c m h fb := by
        rw [deliver_evs_eq, hc]
      obtain ⟨ih1, ih2⟩ := ih (deliver_to_user f (gtask m) st m h fb).1
        (evs0 ++ (deliver_to_user f (gtask m) st m h fb).2) hc1
      refine ⟨ih1, ?_⟩
      rw [ih2, he, List.flatMap_cons, if_neg hm, List.append_assoc]

theorem broadcast_clients (f : String → Header → Bool) (gtask : String → String)
    (st : SState) (g : String) (h : Header) (fb : Option Bytes) :
    (broadcast_group f gtask st g h fb).1.clients = st.clients := by
  unfold broadcast_group
  exact (bgFold_all f gtask h fb (hGet h "from") st.clients
    (gGet st.groups g) st [] rfl).1

theorem broadcast_evs (f : String → Header → Bool) (gtask : String → String)
    (st : SState) (g : String) (h : Header) (fb : Option Bytes) :
    (broadcast_group f gtask st g h fb).2
      = (gGet st.groups g).flatMap (fun m =>
          if some (Val.s m) = hGet h "from" then []
          else deliverEvs f (gtask m) st.clients m h fb) := by
  unfold broadcast_group
  have h2 := (bgFold_all f gtask h fb (hGet h "from") st.clients
    (gGet st.groups g) st [] rfl).2
  simpa using h2

theorem count_sent_storeEvs (t : String) (u : String) (h : Header)
    (b : Option Bytes) : (storeEvs t u h b).countP isSentEv = 0 := by
  rw [List.countP_eq_zero]
  intro e he
  simp [(storeEvs_silent t u h b e he).2.2]

theorem countP_attempt_deliverEvs (f : String → Header → Bool) (t : String)
    (c : List String) (m : String) (h : Header) (fb : Option Bytes) :
    (deliverEvs f t c m h fb).countP isSendAttemptEv = if m ∈ c then 1 else 0 := by
  unfold deliverEvs
  by_cases hm : m ∈ c
  · rw [if_pos hm, if_pos hm]
    by_cases hf : f m h
    · rw [if_pos hf, List.countP_cons, count_attempt_storeEvs]
      simp [isSendAttemptEv]
    · rw [if_neg hf]
      simp [List.countP_cons, isSendAttemptEv]
  · rw [if_neg hm, if_neg hm, count_attempt_storeEvs]

theorem countP_sent_deliverEvs (f : String → Header → Bool) (t : String)
    (c : List String) (m : String) (h : Header) (fb : Option Bytes) :
    (deliverEvs f t c m h fb).countP isSentEv
      = if m ∈ c then (if f m h = true then 0 else 1) else 0 := by
  unfold deliverEvs
  by_cases hm : m ∈ c
  · rw [if_pos hm, if_pos hm]
    by_cases hf : f m h
    · rw [if_pos hf, if_pos hf, List.countP_cons, count_sent_storeEvs]
      simp [isSentEv]
    · rw [if_neg hf, if_neg hf]
      simp [List.countP_cons, isSentEv]
  · rw [if_neg hm, if_neg hm, count_sent_storeEvs]

theorem countP_enq_deliverEvs (f : String → Header → Bool) (t : String)
    (c : List String) (m : String) (h : Header) (fb : Option Bytes) :
    (deliverEvs f t c m h fb).countP isEnqEv
      = if m ∈ c then (if f m h = true then 1 else 0) else 1 := by
  unfold deliverEvs
  by_cases hm : m ∈ c
  · rw [if_pos hm, if_pos hm]
    by_cases hf : f m h
    · rw [if_pos hf, if_pos hf, List.countP_cons, count_enq_storeEvs]
      simp [isEnqEv]
    · rw [if_neg hf, if_neg hf]
      simp [List.countP_cons, isEnqEv]
  · rw [if_neg hm, if_neg hm, count_enq_storeEvs]

theorem sent_mem_deliverEvs (f : String → Header → Bool) (t : String)
    (c : List String) (m : String) (h : Header) (fb : Option Bytes)
    (hm : m ∈ c) (hf : f m h = false) :
    Ev.sent m h fb ∈ deliverEvs f t c m h fb := by
  unfold deliverEvs
  rw [if_pos hm, if_neg (by simp [hf])]
  exact List.mem_singleton.mpr rfl

theorem enq_mem_deliverEvs (f : String → Header → Bool) (t : String)
    (c : List String) (m : String) (h : Header) (fb : Option Bytes)
    (hm : m ∉ c ∨ f m h = true) :
    Ev.enqueued m (storedItem t m h fb).1 (storedItem t m h fb).2
      ∈ deliverEvs f t c m h fb := by
  unfold deliverEvs
  by_cases hc : m ∈ c
  · rcases hm with hm | hf
    · exact absurd hc hm
    · rw [if_pos hc, if_pos hf]
      exact List.mem_cons_of_mem _ (enq_mem_storeEvs t m h fb)
  · rw [if_neg hc]
    exact enq_mem_storeEvs t m h fb

theorem evUser_deliverEvs (f : String → Header → Bool) (t : String)
    (c : List String) (m : String) (h : Header) (fb : Option Bytes) :
    ∀ e ∈ deliverEvs f t c m h fb, evUser e = some m ∨ evUser e = none := by
  intro e he
  unfold deliverEvs at he
  by_cases hc : m ∈ c
  · rw [if_pos hc] at he
    by_cases hf : f m h
    · rw [if_pos hf] at he
      rcases List.mem_cons.mp he with rfl | hm2
      · left; rfl
      · exact evUser_storeEvs t m h fb e hm2
    · rw [if_neg hf] at he
      rw [List.mem_singleton.mp he]
      left; rfl
  · rw [if_neg hc] at he
    exact evUser_storeEvs t m h fb e he

theorem flatMap_countP_filter (members : List String) (g : String → List Ev)
    (p : Ev → Bool) (q : String → Bool)
    (hq : ∀ m, (g m).countP p = if q m then 1 else 0) :
    (members.flatMap g).countP p = (members.filter q).length := by
  induction members with
  | nil => rfl
  | cons m t ih =>
    rw [List.flatMap_cons, List.countP_append, ih, List.filter_cons]
    by_cases hm : q m
    · simp [hq m, hm, Nat.add_comm]
    · simp [hq m, hm]

theorem filter_length_split (members c : List String) (origin : String) :
    ((members.filter (fun m => m ≠ origin)).length
      = (members.filter (fun m => m ≠ origin ∧ m ∈ c)).length
        + (members.filter (fun m => m ≠ origin ∧ m ∉ c)).length) := by
  induction members with
  | nil => rfl
  | cons m t ih =>
    by_cases ho : m = origin
    · simp only [List.filter_cons, ho]
      simp at ih ⊢
      omega
    · by_cases hc : m ∈ c
      · simp only [List.filter_cons]
        simp [ho, hc] at ih ⊢
        omega
      · simp only [List.filter_cons]
        simp [ho, hc] at ih ⊢
        omega
/-- C3.  Dispatching a group-target message stamps "from" with the origin
username and fans out to every member of the group except the origin,
each member independently following the user-target policy: the number of
direct delivery attempts is exactly the number of online non-origin
members; the successful direct sends are exactly those to online
non-failing members; the offline enqueues are exactly those for offline
or failing members (so a delivery failure degrades only that member to
the offline store while every other online member still receives its
direct delivery); no event ever targets the origin; and with no failures
the enqueues number exactly (members except origin) minus (online members
except origin). -/
theorem C3_group_fanout_policy (f : String → Header → Bool) (dtask : String)
    (gtask : String → String) (st : SState) (header : Header)
    (fb : Option Bytes) (origin g : String) :
    ((dispatch f dtask gtask st header fb origin (Target.group g)).2.countP isSendAttemptEv
        = ((gGet st.groups g).filter
            (fun m => m ≠ origin ∧ m ∈ st.clients)).length)
    ∧ ((dispatch f dtask gtask st header fb origin (Target.group g)).2.countP isSentEv
        = ((gGet st.groups g).filter
            (fun m => m ≠ origin ∧ m ∈ st.clients
              ∧ f m (hSet header "from" (Val.s origin)) = false)).length)
    ∧ ((dispatch f dtask gtask st header fb origin (Target.group g)).2.countP isEnqEv
        = ((gGet st.groups g).filter
            (fun m => m ≠ origin ∧ (m ∉ st.clients
              ∨ f m (hSet header "from" (Val.s origin)) = true))).length)
    ∧ (∀ m ∈ gGet st.groups g, m ≠ origin → m ∈ st.clients →
        f m (hSet header "from" (Val.s origin)) = false →
        Ev.sent m (hSet header "from" (Val.s origin)) fb
          ∈ (dispatch f dtask gtask st header fb origin (Target.group g)).2)
    ∧ (∀ m ∈ gGet st.groups g, m ≠ origin →
        (m ∉ st.clients ∨ f m (hSet header "from" (Val.s origin)) = true) →
        Ev.enqueued m
            (storedItem (gtask m) m (hSet header "from" (Val.s origin)) fb).1
            (storedItem (gtask m) m (hSet header "from" (Val.s origin)) fb).2
          ∈ (dispatch f dtask gtask st header fb origin (Target.group g)).2)
    ∧ (∀ e ∈ (dispatch f dtask gtask st header fb origin (Target.group g)).2,
        ¬evUser e = some origin)
    ∧ hGet (hSet header "from" (Val.s origin)) "from" = some (Val.s origin)
    ∧ ((∀ m2 h2, f m2 h2 = false) →
        (dispatch f dtask gtask st header fb origin (Target.group g)).2.countP isEnqEv
          = ((gGet st.groups g).filter (fun m => m ≠ origin)).length
            - ((gGet st.groups g).filter
                (fun m => m ≠ origin ∧ m ∈ st.clients)).length) := by
  have hevs : (dispatch f dtask gtask st header fb origin (Target.group g)).2
      = (gGet st.groups g).flatMap (fun m =>
          if m = origin then []
          else deliverEvs f (gtask m) st.clients m
            (hSet header "from" (Val.s origin)) fb) := by
    have hred : dispatch f dtask gtask st header fb origin (Target.group g)
        = broadcast_group f gtask st g (hSet header "from" (Val.s origin)) fb := rfl
    rw [hred, broadcast_evs, hGet_hSet_self]
    congr 1
    funext m
    by_cases hm : m = origin
    · simp [hm]
    · simp [hm]
  have c3 : (dispatch f dtask gtask st header fb origin (Target.group g)).2.countP isEnqEv
      = ((gGet st.groups g).filter
          (fun m => m ≠ origin ∧ (m ∉ st.clients
            ∨ f m (hSet header "from" (Val.s origin)) = true))).length := by
    rw [hevs]
    apply flatMap_countP_filter
    intro m
    by_cases hm : m = origin
    · simp [hm]
    · cases hfb : f m (hSet header "from" (Val.s origin)) with
      | false =>
        by_cases hc : m ∈ st.clients
        · simp [hm, hc, hfb, countP_enq_deliverEvs]
        · simp [hm, hc, hfb, countP_enq_deliverEvs]
      | true =>
        by_cases hc : m ∈ st.clients
        · simp [hm, hc, hfb, countP_enq_deliverEvs]
        · simp [hm, hc, hfb, countP_enq_deliverEvs]
  refine ⟨?_, ?_, c3, ?_, ?_, ?_, hGet_hSet_self _ _ _, ?_⟩
  · rw [hevs]
    apply flatMap_countP_filter
    intro m
    by_cases hm : m = origin
    · simp [hm]
    · by_cases hc : m ∈ st.clients
      · simp [hm, hc, countP_attempt_deliverEvs]
      · simp [hm, hc, countP_attempt_deliverEvs]
  · rw [hevs]
    apply flatMap_countP_filter
    intro m
    by_cases hm : m = origin
    · simp [hm]
    · cases hfb : f m (hSet header "from" (Val.s origin)) with
      | false =>
        by_cases hc : m ∈ st.clients
        · simp [hm, hc, hfb, countP_sent_deliverEvs]
        · simp [hm, hc, hfb, countP_sent_deliverEvs]
      | true =>
        by_cases hc : m ∈ st.clients
        · simp [hm, hc, hfb, countP_sent_deliverEvs]
        · simp [hm, hc, hfb, countP_sent_deliverEvs]
  · intro m hmem hne hc hf
    rw [hevs]
    exact List.mem_flatMap.mpr ⟨m, hmem, by
      rw [if_neg hne]
      exact sent_mem_deliverEvs f (gtask m) st.clients m _ fb hc hf⟩
  · intro m hmem hne hor
    rw [hevs]
    exact List.mem_flatMap.mpr ⟨m, hmem, by
      rw [if_neg hne]
      exact enq_mem_deliverEvs f (gtask m) st.clients m _ fb hor⟩
  · intro e he
    rw [hevs] at he
    obtain ⟨m, hmem, hin⟩ := List.mem_flatMap.mp he
    by_cases hm : m = origin
    · rw [if_pos hm] at hin
      exact absurd hin (List.not_mem_nil e)
    · rw [if_neg hm] at hin
      rcases evUser_deliverEvs f (gtask m) st.clients m _ fb e hin with hu | hu
      · rw [hu]
        simp [hm]
      · rw [hu]
        simp
  · intro hnf
    have hfe : ((gGet st.groups g).filter
          (fun m => m ≠ origin ∧ (m ∉ st.clients
            ∨ f m (hSet header "from" (Val.s origin)) = true)))
        = ((gGet st.groups g).filter (fun m => m ≠ origin ∧ m ∉ st.clients)) := by
      congr 1
      funext m
      simp [hnf]
    rw [c3, hfe]
    have hsplit := filter_length_split (gGet st.groups g) st.clients origin
    omega

/-- C3, witness: group "team" = alice, bob, carol, dave; sender alice and
carol online; writes to carol fail.  One direct attempt (carol), no
successful direct send, three offline enqueues, and the degraded carol
item is in the offline-enqueue events. -/
theorem C3_witness :
    ((dispatch failsCarol "Task-1" (fun _ => "TaskG") exBcastState exMsgHeader none
        "alice" (Target.group "team")).2.countP isSendAttemptEv = 1)
    ∧ ((dispatch failsCarol "Task-1" (fun _ => "TaskG") exBcastState exMsgHeader none
        "alice" (Target.group "team")).2.countP isSentEv = 0)
    ∧ ((dispatch failsCarol "Task-1" (fun _ => "TaskG") exBcastState exMsgHeader none
        "alice" (Target.group "team")).2.countP isEnqEv = 3)
    ∧ (Ev.enqueued "carol"
        (storedItem "TaskG" "carol" (hSet exMsgHeader "from" (Val.s "alice")) none).1
        (storedItem "TaskG" "carol" (hSet exMsgHeader "from" (Val.s "alice")) none).2
        ∈ (dispatch failsCarol "Task-1" (fun _ => "TaskG") exBcastState exMsgHeader none
            "alice" (Target.group "team")).2) := by
  have h := C3_group_fanout_policy failsCarol "Task-1" (fun _ => "TaskG") exBcastState
    exMsgHeader none "alice" "team"
  refine ⟨h.1.trans (by decide), h.2.1.trans (by decide), h.2.2.1.trans (by decide), ?_⟩
  exact h.2.2.2.2.1 "carol" (by decide) (by decide) (Or.inr (by decide))

end Chat

namespace Codec

/-! Character arithmetic facts. -/

theorem toNat_ofNat_valid (n : Nat) (h : n.isValidChar) : (Char.ofNat n).toNat = n := by
  simp only [Char.ofNat, dif_pos h, Char.ofNatAux, Char.toNat, UInt32.toNat,
    BitVec.toNat_ofNatLt]

theorem toNat_ofNat_small {n : Nat} (h : n < 55296) : (Char.ofNat n).toNat = n :=
  toNat_ofNat_valid n (Or.inl h)

theorem char_eq_of_toNat {a b : Char} (h : a.toNat = b.toNat) : a = b :=
  Char.ext (UInt32.ext h)

theorem charNe_of_toNat {a b : Char} (h : a.toNat ≠ b.toNat) : a ≠ b :=
  fun he => h (congrArg Char.toNat he)

theorem char_valid_nat (c : Char) : c.toNat.isValidChar := c.valid

theorem ofNat_toNat_char (c : Char) : Char.ofNat c.toNat = c :=
  char_eq_of_toNat (toNat_ofNat_valid c.toNat (char_valid_nat c))

theorem quo_toNat : quo.toNat = 34 := rfl

theorem bsc_toNat : bsc.toNat = 92 := rfl

theorem lbc_toNat : lbc.toNat = 123 := rfl

theorem rbc_toNat : rbc.toNat = 125 := rfl

/-! skipWs and fuel lemmas. -/

theorem skipWs_not_ws {c : Char} (h : isWs c = false) (cs : List Char) :
    skipWs (c :: cs) = c :: cs := by
  simp [skipWs, h]

theorem skipWs_ws {c : Char} (h : isWs c = true) (cs : List Char) :
    skipWs (c :: cs) = skipWs cs := by
  simp [skipWs, h]

theorem jParse_ws {c : Char} (h : isWs c = true) (fuel : Nat) (cs : List Char) :
    jParse fuel (c :: cs) = jParse fuel cs := by
  cases fuel with
  | zero => rfl
  | succ f =>
    simp only [jParse]
    rw [skipWs_ws h]

theorem jParseA_ws {c : Char} (h : isWs c = true) (fuel : Nat) (cs : List Char) :
    jParseA fuel (c :: cs) = jParseA fuel cs := by
  cases fuel with
  | zero => rfl
  | succ f =>
    simp only [jParseA]
    rw [jParse_ws h]

theorem jParseO_ws {c : Char} (h : isWs c = true) (fuel : Nat) (cs : List Char) :
    jParseO fuel (c :: cs) = jParseO fuel cs := by
  cases fuel with
  | zero => rfl
  | succ f =>
    simp only [jParseO]
    rw [skipWs_ws h]

theorem rfJ_pos (v : JVal) : 1 ≤ rfJ v := by
  cases v <;> simp [rfJ]

theorem rfA_pos (a : JArr) : 1 ≤ rfA a := by
  cases a <;> simp [rfA]

theorem rfO_pos (o : JObj) : 1 ≤ rfO o := by
  cases o <;> simp [rfO]

/-! Hex digits. -/

theorem hexVal_hexDigChar (x : Nat) (h : x < 16) : hexVal (hexDigChar x) = some x := by
  unfold hexDigChar hexVal
  by_cases h10 : x < 10
  · rw [if_pos h10]
    rw [toNat_ofNat_small (show 48 + x < 55296 by omega)]
    rw [if_pos (show 48 ≤ 48 + x ∧ 48 + x ≤ 57 by omega)]
    have hx : 48 + x - 48 = x := by omega
    rw [hx]
  · rw [if_neg h10]
    rw [toNat_ofNat_small (show 87 + x < 55296 by omega)]
    rw [if_neg (show ¬(48 ≤ 87 + x ∧ 87 + x ≤ 57) by omega)]
    rw [if_pos (show 97 ≤ 87 + x ∧ 87 + x ≤ 102 by omega)]
    have hx : 87 + x - 87 = x := by omega
    rw [hx]

/-! String escaping roundtrip. -/

theorem unStr_quo (f : Nat) (acc t : List Char) :
    unStr (f + 1) acc (quo :: t) = some (acc.reverse, t) := rfl

theorem unStr_lit {c : Char} (h1 : ¬c.toNat = 34) (h2 : ¬c.toNat = 92)
    (h3 : 32 ≤ c.toNat) (f : Nat) (acc t : List Char) :
    unStr (f + 1) acc (c :: t) = unStr f (c :: acc) t := by
  rw [unStr.eq_def]
  simp only [if_neg h1, if_neg h2, if_pos h3]

theorem hex4Val_hex4 (m : Nat) (hm : m < 65536) (t : List Char) :
    hex4Val (hex4 m ++ t) = some (m, t) := by
  simp only [hex4, List.cons_append, List.nil_append, hex4Val]
  rw [hexVal_hexDigChar _ (by omega), hexVal_hexDigChar _ (by omega),
      hexVal_hexDigChar _ (by omega), hexVal_hexDigChar _ (by omega)]
  show some (((m / 4096 % 16 * 16 + m / 256 % 16) * 16 + m / 16 % 16) * 16 + m % 16, t)
      = some (m, t)
  have h : ((m / 4096 % 16 * 16 + m / 256 % 16) * 16 + m / 16 % 16) * 16 + m % 16 = m := by
    omega
  rw [h]

theorem unStr_u_step (f : Nat) (acc t : List Char) :
    unStr (f + 1) acc (bsc :: 'u' :: t)
      = (match hex4Val t with
         | none => none
         | some (m, rest3) =>
           if m < 55296 ∨ 57344 ≤ m then unStr f (Char.ofNat m :: acc) rest3
           else
             if m < 56320 then
               match surrPair rest3 with
               | none => none
               | some (m2, rest5) =>
                 if 56320 ≤ m2 ∧ m2 < 57344 then
                   unStr f (Char.ofNat (65536 + (m - 55296) * 1024 + (m2 - 56320)) :: acc) rest5
                 else none
             else none) := rfl

theorem unStr_u_bmp (f : Nat) (acc t : List Char) (m : Nat) (hm : m < 65536)
    (hval : m < 55296 ∨ 57344 ≤ m) :
    unStr (f + 1) acc (bsc :: 'u' :: (hex4 m ++ t)) = unStr f (Char.ofNat m :: acc) t := by
  rw [unStr_u_step, hex4Val_hex4 m hm t]
  show (if m < 55296 ∨ 57344 ≤ m then unStr f (Char.ofNat m :: acc) t
        else
          if m < 56320 then
            match surrPair t with
            | none => none
            | some (m2, rest5) =>
              if 56320 ≤ m2 ∧ m2 < 57344 then
                unStr f (Char.ofNat (65536 + (m - 55296) * 1024 + (m2 - 56320)) :: acc) rest5
              else none
          else none)
      = unStr f (Char.ofNat m :: acc) t
  rw [if_pos hval]

theorem unStr_u_surr (f : Nat) (acc t : List Char) (n : Nat)
    (h1 : 65536 ≤ n) (h2 : n < 1114112) :
    unStr (f + 1) acc (bsc :: 'u' ::
        (hex4 (55296 + (n - 65536) / 1024)
          ++ (bsc :: 'u' :: (hex4 (56320 + (n - 65536) % 1024) ++ t))))
      = unStr f (Char.ofNat n :: acc) t := by
  rw [unStr_u_step, hex4Val_hex4 _ (by omega) _]
  show (if 55296 + (n - 65536) / 1024 < 55296 ∨ 57344 ≤ 55296 + (n - 65536) / 1024 then
          unStr f (Char.ofNat (55296 + (n - 65536) / 1024) :: acc)
            (bsc :: 'u' :: (hex4 (56320 + (n - 65536) % 1024) ++ t))
        else
          if 55296 + (n - 65536) / 1024 < 56320 then
            match surrPair (bsc :: 'u' :: (hex4 (56320 + (n - 65536) % 1024) ++ t)) with
            | none => none
            | some (m2, rest5) =>
              if 56320 ≤ m2 ∧ m2 < 57344 then
                unStr f (Char.ofNat (65536 + (55296 + (n - 65536) / 1024 - 55296) * 1024
                  + (m2 - 56320)) :: acc) rest5
              else none
          else none)
      = unStr f (Char.ofNat n :: acc) t
  rw [if_neg (by omega), if_pos (by omega)]
  rw [show surrPair (bsc :: 'u' :: (hex4 (56320 + (n - 65536) % 1024) ++ t))
      = hex4Val (hex4 (56320 + (n - 65536) % 1024) ++ t) from by
    simp [surrPair, bsc_toNat]]
  rw [hex4Val_hex4 _ (by omega) _]
  show (if 56320 ≤ 56320 + (n - 65536) % 1024 ∧ 56320 + (n - 65536) % 1024 < 57344 then
          unStr f (Char.ofNat (65536 + (55296 + (n - 65536) / 1024 - 55296) * 1024
            + (56320 + (n - 65536) % 1024 - 56320)) :: acc) t
        else none)
      = unStr f (Char.ofNat n :: acc) t
  have hx : 65536 + (55296 + (n - 65536) / 1024 - 55296) * 1024
      + (56320 + (n - 65536) % 1024 - 56320) = n := by omega
  rw [if_pos (by omega), hx]

theorem unStr_escChar (c : Char) (f : Nat) (acc t : List Char) :
    unStr (f + 1) acc (escChar c ++ t) = unStr f (c :: acc) t := by
  by_cases h34 : c.toNat = 34
  · rw [show escChar c = [bsc, quo] from by simp [escChar, h34],
        show c = quo from char_eq_of_toNat (by rw [h34, quo_toNat])]
    rfl
  by_cases h92 : c.toNat = 92
  · rw [show escChar c = [bsc, bsc] from by simp [escChar, h34, h92],
        show c = bsc from char_eq_of_toNat (by rw [h92, bsc_toNat])]
    rfl
  by_cases h8 : c.toNat = 8
  · rw [show escChar c = [bsc, 'b'] from by simp [escChar, h34, h92, h8]]
    rw [show unStr (f + 1) acc ([bsc, 'b'] ++ t) = unStr f (Char.ofNat 8 :: acc) t from rfl]
    rw [show Char.ofNat 8 = c from char_eq_of_toNat (by rw [toNat_ofNat_small (by omega), h8])]
  by_cases h9 : c.toNat = 9
  · rw [show escChar c = [bsc, 't'] from by simp [escChar, h34, h92, h8, h9]]
    rw [show unStr (f + 1) acc ([bsc, 't'] ++ t) = unStr f (Char.ofNat 9 :: acc) t from rfl]
    rw [show Char.ofNat 9 = c from char_eq_of_toNat (by rw [toNat_ofNat_small (by omega), h9])]
  by_cases h10 : c.toNat = 10
  · rw [show escChar c = [bsc, 'n'] from by simp [escChar, h34, h92, h8, h9, h10]]
    rw [show unStr (f + 1) acc ([bsc, 'n'] ++ t) = unStr f (Char.ofNat 10 :: acc) t from rfl]
    rw [show Char.ofNat 10 = c from char_eq_of_toNat (by rw [toNat_ofNat_small (by omega), h10])]
  by_cases h12 : c.toNat = 12
  · rw [show escChar c = [bsc, 'f'] from by simp [escChar, h34, h92, h8, h9, h10, h12]]
    rw [show unStr (f + 1) acc ([bsc, 'f'] ++ t) = unStr f (Char.ofNat 12 :: acc) t from rfl]
    rw [show Char.ofNat 12 = c from char_eq_of_toNat (by rw [toNat_ofNat_small (by omega), h12])]
  by_cases h13 : c.toNat = 13
  · rw [show escChar c = [bsc, 'r'] from by simp [escChar, h34, h92, h8, h9, h10, h12, h13]]
    rw [show unStr (f + 1) acc ([bsc, 'r'] ++ t) = unStr f (Char.ofNat 13 :: acc) t from rfl]
    rw [show Char.ofNat 13 = c from char_eq_of_toNat (by rw [toNat_ofNat_small (by omega), h13])]
  by_cases hlt32 : c.toNat < 32
  · rw [show escChar c = bsc :: 'u' :: hex4 c.toNat from by
      simp [escChar, h34, h92, h8, h9, h10, h12, h13, hlt32]]
    rw [show (bsc :: 'u' :: hex4 c.toNat) ++ t = bsc :: 'u' :: (hex4 c.toNat ++ t) from by
      simp]
    rw [unStr_u_bmp f acc t c.toNat (by omega) (by omega), ofNat_toNat_char]
  by_cases hlt127 : c.toNat < 127
  · rw [show escChar c = [c] from by
      simp [escChar, h34, h92, h8, h9, h10, h12, h13, hlt32, hlt127]]
    exact unStr_lit h34 h92 (by omega) f acc t
  by_cases hlt65536 : c.toNat < 65536
  · have hv := char_valid_nat c
    rw [show escChar c = bsc :: 'u' :: hex4 c.toNat from by
      simp [escChar, h34, h92, h8, h9, h10, h12, h13, hlt32, hlt127, hlt65536]]
    rw [show (bsc :: 'u' :: hex4 c.toNat) ++ t = bsc :: 'u' :: (hex4 c.toNat ++ t) from by
      simp]
    rw [unStr_u_bmp f acc t c.toNat (by omega) (by
      rcases hv with h | h
      · omega
      · omega), ofNat_toNat_char]
  · have hv := char_valid_nat c
    rw [show escChar c = bsc :: 'u' ::
        (hex4 (55296 + (c.toNat - 65536) / 1024)
          ++ (bsc :: 'u' :: hex4 (56320 + (c.toNat - 65536) % 1024))) from by
      simp [escChar, h34, h92, h8, h9, h10, h12, h13, hlt32, hlt127, hlt65536]]
    rw [show (bsc :: 'u' ::
        (hex4 (55296 + (c.toNat - 65536) / 1024)
          ++ (bsc :: 'u' :: hex4 (56320 + (c.toNat - 65536) % 1024)))) ++ t
      = bsc :: 'u' ::
        (hex4 (55296 + (c.toNat - 65536) / 1024)
          ++ (bsc :: 'u' :: (hex4 (56320 + (c.toNat - 65536) % 1024) ++ t))) from by
      simp]
    rw [unStr_u_surr f acc t c.toNat (by omega) (by
      rcases hv with h | h
      · omega
      · omega), ofNat_toNat_char]

theorem unStr_escList : ∀ (cs : List Char) (f : Nat) (acc t : List Char),
    cs.length + 1 ≤ f →
    unStr f acc (escList cs ++ (quo :: t)) = some (acc.reverse ++ cs, t) := by
  intro cs
  induction cs with
  | nil =>
    intro f acc t hf
    obtain ⟨f2, rfl⟩ : ∃ f2, f = f2 + 1 := ⟨f - 1, by omega⟩
    rw [show escList [] ++ (quo :: t) = quo :: t from rfl, unStr_quo]
    simp
  | cons ch cs ih =>
    intro f acc t hf
    obtain ⟨f2, rfl⟩ : ∃ f2, f = f2 + 1 := ⟨f - 1, by omega⟩
    rw [show escList (ch :: cs) ++ (quo :: t)
        = escChar ch ++ (escList cs ++ (quo :: t)) from by
      simp [escList, List.flatMap_cons, List.append_assoc]]
    rw [unStr_escChar, ih f2 (ch :: acc) t (by simp at hf; omega)]
    simp


/-! Decimal digits roundtrip. -/

theorem digChar_toNat {d : Nat} (h : d < 10) : (digChar d).toNat = 48 + d :=
  toNat_ofNat_small (by omega)

theorem digChar_isDigit {d : Nat} (h : d < 10) : (digChar d).isDigit = true := by
  interval_cases d <;> decide

theorem natCharsAux_eq : ∀ (f n : Nat), n ≤ f →
    natCharsAux f n = (Nat.digits 10 n).reverse.map digChar := by
  intro f
  induction f with
  | zero =>
    intro n h
    have h0 : n = 0 := by omega
    subst h0
    simp [natCharsAux]
  | succ f ih =>
    intro n h
    by_cases h0 : n = 0
    · subst h0
      simp [natCharsAux]
    · rw [show natCharsAux (f + 1) n
          = natCharsAux f (n / 10) ++ [digChar (n % 10)] from by
        simp [natCharsAux, h0]]
      have hdiv : n / 10 < n := Nat.div_lt_self (Nat.pos_of_ne_zero h0) (by omega)
      rw [ih (n / 10) (by omega)]
      rw [Nat.digits_def' (by omega : (1:ℕ) < 10) (Nat.pos_of_ne_zero h0)]
      simp

theorem natChars_digits (n : Nat) (h : n ≠ 0) :
    natChars n = (Nat.digits 10 n).reverse.map digChar := by
  unfold natChars
  rw [if_neg h]
  exact natCharsAux_eq n n le_rfl

theorem digRun_map (ds : List Nat) (hds : ∀ d ∈ ds, d < 10) (rest : List Char)
    (hrest : ∀ c, rest.head? = some c → c.isDigit = false) :
    digRun (ds.map digChar ++ rest) = (ds, rest) := by
  induction ds with
  | nil =>
    cases rest with
    | nil => rfl
    | cons c t =>
      simp only [List.map_nil, List.nil_append, digRun]
      rw [hrest c rfl]
      simp
  | cons d ds ih =>
    have hd : d < 10 := hds d (List.mem_cons_self d ds)
    have ih2 := ih (fun x hx => hds x (List.mem_cons_of_mem d hx))
    simp only [List.map_cons, List.cons_append, digRun, digChar_isDigit hd,
      List.append_eq, if_true]
    rw [ih2]
    simp [digChar_toNat hd]

theorem foldl_rev_digits (n : Nat) :
    ((Nat.digits 10 n).reverse).foldl (fun a d => 10 * a + d) 0 = n := by
  rw [List.foldl_reverse]
  have h : ∀ L : List Nat, L.foldr (fun x y => 10 * y + x) 0 = Nat.ofDigits 10 L := by
    intro L
    induction L with
    | nil => simp [Nat.ofDigits]
    | cons d t ih =>
      simp only [List.foldr_cons, Nat.ofDigits_cons, ih]
      omega
  rw [h]
  exact_mod_cast Nat.ofDigits_digits 10 n

theorem numRun_natChars (n : Nat) (rest : List Char)
    (hrest : ∀ c, rest.head? = some c → c.isDigit = false) :
    numRun (natChars n ++ rest) = some (n, rest) := by
  by_cases h0 : n = 0
  · subst h0
    rw [show natChars 0 = List.map digChar [0] from rfl]
    unfold numRun
    rw [digRun_map [0] (by simp) rest hrest]
    rfl
  · unfold numRun
    rw [natChars_digits n h0,
        digRun_map _ (fun d hd =>
          Nat.digits_lt_base (by omega) (List.mem_reverse.mp hd)) rest hrest]
    have hne : (Nat.digits 10 n).reverse ≠ [] := by
      simp [Nat.digits_ne_nil_iff_ne_zero, h0]
    obtain ⟨d, t2, hdt⟩ := List.exists_cons_of_ne_nil hne
    rw [hdt]
    show some ((d :: t2).foldl (fun a d => 10 * a + d) 0, rest) = some (n, rest)
    rw [← hdt, foldl_rev_digits]

/-! Parser step lemmas and token facts. -/


theorem jParse_cons (fuel : Nat) (c : Char) (rest : List Char) (hws : isWs c = false) :
    jParse (fuel + 1) (c :: rest)
      = (if c.toNat = 34 then
           match unStr (rest.length + 1) [] rest with
           | some (cs, r) => some (JVal.str (String.mk cs), r)
           | none => none
         else if c = '[' then
           match skipWs rest with
           | [] => none
           | d :: rest2 =>
             if d = ']' then some (JVal.arr JArr.nil, rest2)
             else match jParseA fuel (d :: rest2) with
                  | some (a, r) => some (JVal.arr a, r)
                  | none => none
         else if c.toNat = 123 then
           match skipWs rest with
           | [] => none
           | d :: rest2 =>
             if d.toNat = 125 then some (JVal.obj JObj.nil, rest2)
             else match jParseO fuel (d :: rest2) with
                  | some (o, r) => some (JVal.obj o, r)
                  | none => none
         else if c = '-' then
           match numRun rest with
           | some (n, r) => some (JVal.num (-(n : Int)), r)
           | none => none
         else if c.isDigit then
           match numRun (c :: rest) with
           | some (n, r) => some (JVal.num (n : Int), r)
           | none => none
         else none) := by
  simp only [jParse]
  rw [skipWs_not_ws hws]

theorem jParseA_succ (fuel : Nat) (input : List Char) :
    jParseA (fuel + 1) input
      = (match jParse fuel input with
         | none => none
         | some (v, r) =>
           match skipWs r with
           | [] => none
           | c :: r2 =>
             if c = ',' then
               match jParseA fuel r2 with
               | some (a, r3) => some (JArr.cons v a, r3)
               | none => none
             else if c = ']' then some (JArr.cons v JArr.nil, r2)
             else none) := rfl

theorem jParseO_cons (fuel : Nat) (c : Char) (rest : List Char) (hws : isWs c = false) :
    jParseO (fuel + 1) (c :: rest)
      = (if c.toNat = 34 then
           match unStr (rest.length + 1) [] rest with
           | none => none
           | some (kcs, r) =>
             match skipWs r with
             | [] => none
             | d :: r2 =>
               if d = ':' then
                 match jParse fuel r2 with
                 | none => none
                 | some (v, r3) =>
                   match skipWs r3 with
                   | [] => none
                   | e :: r4 =>
                     if e = ',' then
                       match jParseO fuel r4 with
                       | some (o, r5) => some (JObj.cons (String.mk kcs) v o, r5)
                       | none => none
                     else if e.toNat = 125 then some (JObj.cons (String.mk kcs) v JObj.nil, r4)
                     else none
               else none
         else none) := by
  simp only [jParseO]
  rw [skipWs_not_ws hws]

theorem isWs_false_of_toNat {c : Char} {n : Nat} (h : c.toNat = n)
    (hn : ¬(n = 32 ∨ n = 9 ∨ n = 10 ∨ n = 13)) : isWs c = false := by
  unfold isWs
  rw [h]
  exact decide_eq_false hn

theorem isWs_digChar {d : Nat} (hd : d < 10) : isWs (digChar d) = false :=
  isWs_false_of_toNat (digChar_toNat hd) (by omega)

theorem digChar_ne_of_toNat {d m : Nat} (hd : d < 10) {c : Char} (hc : c.toNat = m)
    (hne : ¬48 + d = m) : ¬digChar d = c :=
  charNe_of_toNat (by rw [digChar_toNat hd, hc]; exact hne)

theorem natChars_shape (n : Nat) : ∃ d t2, d < 10 ∧ natChars n = digChar d :: t2 := by
  by_cases h0 : n = 0
  · exact ⟨0, [], by omega, by rw [h0]; rfl⟩
  · rw [natChars_digits n h0]
    have hne : (Nat.digits 10 n).reverse ≠ [] := by
      simp [Nat.digits_ne_nil_iff_ne_zero, h0]
    obtain ⟨d, t2, hdt⟩ := List.exists_cons_of_ne_nil hne
    refine ⟨d, t2.map digChar, ?_, by rw [hdt]; simp⟩
    exact Nat.digits_lt_base (by omega)
      (List.mem_reverse.mp (hdt ▸ List.mem_cons_self d t2))

theorem jParse_num (fuel : Nat) (i : Int) (rest : List Char)
    (hrest : ∀ c, rest.head? = some c → c.isDigit = false) :
    jParse (fuel + 1) (intChars i ++ rest) = some (JVal.num i, rest) := by
  by_cases hneg : i < 0
  · rw [show intChars i = '-' :: natChars i.natAbs from by
      unfold intChars; rw [if_pos hneg]]
    rw [List.cons_append, jParse_cons _ _ _ (by decide)]
    rw [if_neg (by decide), if_neg (by decide), if_neg (by decide), if_pos rfl]
    rw [numRun_natChars i.natAbs rest hrest]
    show some (JVal.num (-(i.natAbs : Int)), rest) = some (JVal.num i, rest)
    have h2 : -(i.natAbs : Int) = i := by omega
    rw [h2]
  · obtain ⟨d, t2, hd, ht⟩ := natChars_shape i.toNat
    rw [show intChars i = natChars i.toNat from by unfold intChars; rw [if_neg hneg]]
    rw [ht, List.cons_append, jParse_cons _ _ _ (isWs_digChar hd)]
    rw [if_neg (by rw [digChar_toNat hd]; omega),
        if_neg (digChar_ne_of_toNat hd (show ('[' : Char).toNat = 91 from rfl) (by omega)),
        if_neg (by rw [digChar_toNat hd]; omega),
        if_neg (digChar_ne_of_toNat hd (show ('-' : Char).toNat = 45 from rfl) (by omega)),
        if_pos (digChar_isDigit hd)]
    rw [← List.cons_append, ← ht, numRun_natChars i.toNat rest hrest]
    show some (JVal.num ((i.toNat : Nat) : Int), rest) = some (JVal.num i, rest)
    have h2 : ((i.toNat : Nat) : Int) = i := by omega
    rw [h2]

set_option maxHeartbeats 1000000 in
theorem escChar_length_pos (c : Char) : 1 ≤ (escChar c).length := by
  unfold escChar
  simp only []
  split_ifs <;>
    simp only [List.length_cons, List.length_append, List.length_nil] <;> omega

theorem escList_length (cs : List Char) : cs.length ≤ (escList cs).length := by
  induction cs with
  | nil => simp [escList]
  | cons c cs ih =>
    have h1 := escChar_length_pos c
    rw [show escList (c :: cs) = escChar c ++ escList cs from by
      simp [escList]]
    rw [List.length_append, List.length_cons]
    omega

theorem jParse_str (fuel : Nat) (s : String) (rest : List Char) :
    jParse (fuel + 1) (escStr s ++ rest) = some (JVal.str s, rest) := by
  rw [show escStr s ++ rest = quo :: (escList s.data ++ (quo :: rest)) from by
    simp [escStr]]
  rw [jParse_cons _ _ _ (by decide), if_pos quo_toNat]
  rw [unStr_escList s.data ((escList s.data ++ (quo :: rest)).length + 1) [] rest
    (by
      have := escList_length s.data
      rw [List.length_append, List.length_cons]
      omega)]
  show some (JVal.str (String.mk (List.reverse [] ++ s.data)), rest)
      = some (JVal.str s, rest)
  rw [show List.reverse ([] : List Char) ++ s.data = s.data from by simp]

theorem jDump_head_facts (v : JVal) : ∃ c t2, jDump v = c :: t2
    ∧ isWs c = false ∧ ¬c = ']' ∧ ¬c.toNat = 125 := by
  cases v with
  | str s => exact ⟨quo, escList s.data ++ [quo], rfl, by decide, by decide, by decide⟩
  | num i =>
    by_cases hneg : i < 0
    · refine ⟨'-', natChars i.natAbs, ?_, by decide, by decide, by decide⟩
      show intChars i = _
      unfold intChars
      rw [if_pos hneg]
    · obtain ⟨d, t2, hd, ht⟩ := natChars_shape i.toNat
      refine ⟨digChar d, t2, ?_, isWs_digChar hd,
        digChar_ne_of_toNat hd (show (']' : Char).toNat = 93 from rfl) (by omega),
        by rw [digChar_toNat hd]; omega⟩
      show intChars i = _
      unfold intChars
      rw [if_neg hneg, ht]
  | arr a => exact ⟨'[', jDumpA a ++ [']'], rfl, by decide, by decide, by decide⟩
  | obj o => exact ⟨lbc, jDumpO o ++ [rbc], rfl, by decide, by decide, by decide⟩

theorem headNotDig_cons {c0 : Char} (h : c0.isDigit = false) (t : List Char) :
    ∀ c, (c0 :: t).head? = some c → c.isDigit = false := by
  intro c hc
  rw [show c = c0 from (Option.some.inj hc).symm]
  exact h

theorem jParse_jDump : ∀ (fuel : Nat),
    (∀ (v : JVal) (rest : List Char), rfJ v ≤ fuel →
      (∀ c, rest.head? = some c → c.isDigit = false) →
      jParse fuel (jDump v ++ rest) = some (v, rest))
    ∧ (∀ (v : JVal) (a : JArr) (rest : List Char), rfA (JArr.cons v a) ≤ fuel →
      (∀ c, rest.head? = some c → c.isDigit = false) →
      jParseA fuel (jDumpA (JArr.cons v a) ++ (']' :: rest))
        = some (JArr.cons v a, rest))
    ∧ (∀ (k : String) (v : JVal) (o : JObj) (rest : List Char),
      rfO (JObj.cons k v o) ≤ fuel →
      (∀ c, rest.head? = some c → c.isDigit = false) →
      jParseO fuel (jDumpO (JObj.cons k v o) ++ (rbc :: rest))
        = some (JObj.cons k v o, rest)) := by
  intro fuel
  induction fuel with
  | zero =>
    refine ⟨?_, ?_, ?_⟩
    · intro v rest hf _
      have h1 := rfJ_pos v
      omega
    · intro v a rest hf _
      have h1 := rfA_pos (JArr.cons v a)
      omega
    · intro k v o rest hf _
      have h1 := rfO_pos (JObj.cons k v o)
      omega
  | succ fuel ih =>
    obtain ⟨ihV, ihA, ihO⟩ := ih
    refine ⟨?_, ?_, ?_⟩
    · intro v rest hf hrest
      cases v with
      | str s => exact jParse_str fuel s rest
      | num i => exact jParse_num fuel i rest hrest
      | arr a =>
        rw [show jDump (JVal.arr a) ++ rest = '[' :: (jDumpA a ++ (']' :: rest)) from by
          show ('[' :: jDumpA a ++ [']']) ++ rest = _
          simp]
        rw [jParse_cons fuel '[' _ (by decide)]
        rw [if_neg (by decide), if_pos rfl]
        cases a with
        | nil =>
          rw [show jDumpA JArr.nil ++ (']' :: rest) = ']' :: rest from rfl]
          rw [skipWs_not_ws (by decide)]
          rfl
        | cons v1 a1 =>
          obtain ⟨q, hq⟩ : ∃ q, jDumpA (JArr.cons v1 a1) = jDump v1 ++ q := by
            cases a1 with
            | nil => exact ⟨[], by simp [jDumpA]⟩
            | cons v2 a2 =>
                exact ⟨',' :: ' ' :: jDumpA (JArr.cons v2 a2), by simp [jDumpA]⟩
          obtain ⟨c0, t0, hct, hws0, hne93, _⟩ := jDump_head_facts v1
          have hL : jDumpA (JArr.cons v1 a1) ++ (']' :: rest)
              = c0 :: (t0 ++ q ++ (']' :: rest)) := by
            rw [hq, hct]
            simp
          rw [hL, skipWs_not_ws hws0]
          show (if c0 = ']' then some (JVal.arr JArr.nil, t0 ++ q ++ (']' :: rest))
                else
                  match jParseA fuel (c0 :: (t0 ++ q ++ (']' :: rest))) with
                  | some (a, r) => some (JVal.arr a, r)
                  | none => none)
              = some (JVal.arr (JArr.cons v1 a1), rest)
          rw [if_neg hne93, ← hL]
          rw [ihA v1 a1 rest (by simp only [rfJ, rfA] at hf ⊢; omega) hrest]
      | obj o =>
        rw [show jDump (JVal.obj o) ++ rest = lbc :: (jDumpO o ++ (rbc :: rest)) from by
          show (lbc :: jDumpO o ++ [rbc]) ++ rest = _
          simp]
        rw [jParse_cons fuel lbc _ (by decide)]
        rw [if_neg (by decide), if_neg (by decide), if_pos lbc_toNat]
        cases o with
        | nil =>
          rw [show jDumpO JObj.nil ++ (rbc :: rest) = rbc :: rest from rfl]
          rw [skipWs_not_ws (by decide)]
          rfl
        | cons k1 v1 o1 =>
          obtain ⟨t3, hL⟩ : ∃ t3,
              jDumpO (JObj.cons k1 v1 o1) ++ (rbc :: rest) = quo :: t3 := by
            cases o1 with
            | nil =>
                exact ⟨escList k1.data ++ quo :: ':' :: ' ' :: jDump v1 ++ rbc :: rest,
                  by simp [jDumpO, escStr]⟩
            | cons k2 v2 o2 =>
                exact ⟨escList k1.data ++ quo :: ':' :: ' ' :: jDump v1 ++ ',' :: ' ' ::
                    jDumpO (JObj.cons k2 v2 o2) ++ rbc :: rest,
                  by simp [jDumpO, escStr]⟩
          rw [hL, skipWs_not_ws (by decide)]
          show (if quo.toNat = 125 then some (JVal.obj JObj.nil, t3)
                else
                  match jParseO fuel (quo :: t3) with
                  | some (o, r) => some (JVal.obj o, r)
                  | none => none)
              = some (JVal.obj (JObj.cons k1 v1 o1), rest)
          rw [if_neg (by decide), ← hL]
          rw [ihO k1 v1 o1 rest (by simp only [rfJ, rfO] at hf ⊢; omega) hrest]
    · intro v a rest hf hrest
      rw [jParseA_succ]
      have hb1 : rfJ v ≤ fuel := by simp only [rfA] at hf; omega
      cases a with
      | nil =>
        rw [show jDumpA (JArr.cons v JArr.nil) ++ (']' :: rest)
            = jDump v ++ (']' :: rest) from by simp [jDumpA]]
        rw [ihV v (']' :: rest) hb1 (headNotDig_cons (by decide) rest)]
        rfl
      | cons v2 a2 =>
        have hb2 : rfA (JArr.cons v2 a2) ≤ fuel := by
          simp only [rfA] at hf ⊢
          omega
        rw [show jDumpA (JArr.cons v (JArr.cons v2 a2)) ++ (']' :: rest)
            = jDump v ++ (',' :: ' ' :: (jDumpA (JArr.cons v2 a2) ++ (']' :: rest)))
            from by simp [jDumpA]]
        rw [ihV v _ hb1 (headNotDig_cons (by decide) _)]
        show (match jParseA fuel (' ' :: (jDumpA (JArr.cons v2 a2) ++ (']' :: rest))) with
              | some (a3, r3) => some (JArr.cons v a3, r3)
              | none => none) = some (JArr.cons v (JArr.cons v2 a2), rest)
        rw [jParseA_ws (by decide) fuel _]
        rw [ihA v2 a2 rest hb2 hrest]
    · intro k v o rest hf hrest
      have hb1 : rfJ v ≤ fuel := by simp only [rfO] at hf; omega
      cases o with
      | nil =>
        rw [show jDumpO (JObj.cons k v JObj.nil) ++ (rbc :: rest)
            = quo :: (escList k.data ++ (quo :: (':' :: ' ' :: (jDump v ++ (rbc :: rest)))))
            from by simp [jDumpO, escStr]]
        rw [jParseO_cons fuel quo _ (by decide), if_pos quo_toNat]
        rw [unStr_escList k.data _ [] _ (by
          have h2 := escList_length k.data
          simp only [List.length_append, List.length_cons]
          omega)]
        rw [show List.reverse ([] : List Char) ++ k.data = k.data from by simp]
        show (match jParse fuel (' ' :: (jDump v ++ (rbc :: rest))) with
              | none => none
              | some (v3, r3) =>
                match skipWs r3 with
                | [] => none
                | e :: r4 =>
                  if e = ',' then
                    match jParseO fuel r4 with
                    | some (o5, r5) => some (JObj.cons (String.mk k.data) v3 o5, r5)
                    | none => none
                  else if e.toNat = 125 then
                    some (JObj.cons (String.mk k.data) v3 JObj.nil, r4)
                  else none)
            = some (JObj.cons k v JObj.nil, rest)
        rw [jParse_ws (by decide) fuel _]
        rw [ihV v (rbc :: rest) hb1 (headNotDig_cons (by decide) rest)]
        rfl
      | cons k2 v2 o2 =>
        have hb2 : rfO (JObj.cons k2 v2 o2) ≤ fuel := by
          simp only [rfO] at hf ⊢
          omega
        rw [show jDumpO (JObj.cons k v (JObj.cons k2 v2 o2)) ++ (rbc :: rest)
            = quo :: (escList k.data ++ (quo :: (':' :: ' ' ::
                (jDump v ++ (',' :: ' ' ::
                  (jDumpO (JObj.cons k2 v2 o2) ++ (rbc :: rest)))))))
            from by simp [jDumpO, escStr]]
        rw [jParseO_cons fuel quo _ (by decide), if_pos quo_toNat]
        rw [unStr_escList k.data _ [] _ (by
          have h2 := escList_length k.data
          simp only [List.length_append, List.length_cons]
          omega)]
        rw [show List.reverse ([] : List Char) ++ k.data = k.data from by simp]
        show (match jParse fuel (' ' :: (jDump v ++ (',' :: ' ' ::
                (jDumpO (JObj.cons k2 v2 o2) ++ (rbc :: rest))))) with
              | none => none
              | some (v3, r3) =>
                match skipWs r3 with
                | [] => none
                | e :: r4 =>
                  if e = ',' then
                    match jParseO fuel r4 with
                    | some (o5, r5) => some (JObj.cons (String.mk k.data) v3 o5, r5)
                    | none => none
                  else if e.toNat = 125 then
                    some (JObj.cons (String.mk k.data) v3 JObj.nil, r4)
                  else none)
            = some (JObj.cons k v (JObj.cons k2 v2 o2), rest)
        rw [jParse_ws (by decide) fuel _]
        rw [ihV v _ hb1 (headNotDig_cons (by decide) _)]
        show (match jParseO fuel (' ' :: (jDumpO (JObj.cons k2 v2 o2) ++ (rbc :: rest))) with
              | some (o5, r5) => some (JObj.cons (String.mk k.data) v o5, r5)
              | none => none)
            = some (JObj.cons k v (JObj.cons k2 v2 o2), rest)
        rw [jParseO_ws (by decide) fuel _]
        rw [ihO k2 v2 o2 rest hb2 hrest]

theorem hexDigChar_ascii {d : Nat} (h : d < 16) : (hexDigChar d).toNat < 128 := by
  unfold hexDigChar
  by_cases h10 : d < 10
  · rw [if_pos h10, toNat_ofNat_small (by omega)]
    omega
  · rw [if_neg h10, toNat_ofNat_small (by omega)]
    omega

theorem hex4_ascii (n : Nat) : ∀ d ∈ hex4 n, d.toNat < 128 := by
  intro d hd
  simp only [hex4, List.mem_cons, List.not_mem_nil, or_false] at hd
  rcases hd with rfl | rfl | rfl | rfl <;>
    exact hexDigChar_ascii (by omega)

set_option maxHeartbeats 1000000 in
theorem escChar_ascii (c : Char) : ∀ d ∈ escChar c, d.toNat < 128 := by
  intro d hd
  unfold escChar at hd
  simp only [] at hd
  split_ifs at hd with h1 h2 h3 h4 h5 h6 h7 h8 h9 h10
  · rcases List.mem_cons.mp hd with rfl | hd2
    · decide
    · rcases List.mem_singleton.mp hd2 with rfl
      decide
  · rcases List.mem_cons.mp hd with rfl | hd2
    · decide
    · rcases List.mem_singleton.mp hd2 with rfl
      decide
  · rcases List.mem_cons.mp hd with rfl | hd2
    · decide
    · rcases List.mem_singleton.mp hd2 with rfl
      decide
  · rcases List.mem_cons.mp hd with rfl | hd2
    · decide
    · rcases List.mem_singleton.mp hd2 with rfl
      decide
  · rcases List.mem_cons.mp hd with rfl | hd2
    · decide
    · rcases List.mem_singleton.mp hd2 with rfl
      decide
  · rcases List.mem_cons.mp hd with rfl | hd2
    · decide
    · rcases List.mem_singleton.mp hd2 with rfl
      decide
  · rcases List.mem_cons.mp hd with rfl | hd2
    · decide
    · rcases List.mem_singleton.mp hd2 with rfl
      decide
  · rcases List.mem_cons.mp hd with rfl | hd2
    · decide
    rcases List.mem_cons.mp hd2 with rfl | hd3
    · decide
    exact hex4_ascii _ d hd3
  · rcases List.mem_singleton.mp hd with rfl
    omega
  · rcases List.mem_cons.mp hd with rfl | hd2
    · decide
    rcases List.mem_cons.mp hd2 with rfl | hd3
    · decide
    exact hex4_ascii _ d hd3
  · rcases List.mem_cons.mp hd with rfl | hd2
    · decide
    rcases List.mem_cons.mp hd2 with rfl | hd3
    · decide
    rcases List.mem_append.mp hd3 with hd4 | hd5
    · exact hex4_ascii _ d hd4
    rcases List.mem_cons.mp hd5 with rfl | hd6
    · decide
    rcases List.mem_cons.mp hd6 with rfl | hd7
    · decide
    exact hex4_ascii _ d hd7

theorem escList_ascii (cs : List Char) : ∀ d ∈ escList cs, d.toNat < 128 := by
  intro d hd
  simp only [escList, List.mem_flatMap] at hd
  obtain ⟨c, _, hdc⟩ := hd
  exact escChar_ascii c d hdc

theorem natChars_ascii (n : Nat) : ∀ d ∈ natChars n, d.toNat < 128 := by
  intro d hd
  by_cases h0 : n = 0
  · subst h0
    rcases List.mem_singleton.mp hd with rfl
    decide
  · rw [natChars_digits n h0] at hd
    simp only [List.mem_map, List.mem_reverse] at hd
    obtain ⟨x, hx, rfl⟩ := hd
    have hx10 : x < 10 := Nat.digits_lt_base (by omega) hx
    rw [digChar_toNat hx10]
    omega

theorem intChars_ascii (i : Int) : ∀ d ∈ intChars i, d.toNat < 128 := by
  intro d hd
  unfold intChars at hd
  split_ifs at hd
  · rcases List.mem_cons.mp hd with rfl | hd2
    · decide
    · exact natChars_ascii _ d hd2
  · exact natChars_ascii _ d hd

theorem escStr_ascii (s : String) : ∀ d ∈ escStr s, d.toNat < 128 := by
  intro d hd
  rw [show escStr s = quo :: (escList s.data ++ [quo]) from rfl] at hd
  rcases List.mem_cons.mp hd with rfl | hd2
  · decide
  rcases List.mem_append.mp hd2 with hd3 | hd4
  · exact escList_ascii _ d hd3
  rcases List.mem_singleton.mp hd4 with rfl
  decide

theorem jDump_ascii_aux : ∀ (fuel : Nat),
    (∀ v : JVal, rfJ v ≤ fuel → ∀ c ∈ jDump v, c.toNat < 128)
    ∧ (∀ a : JArr, rfA a ≤ fuel → ∀ c ∈ jDumpA a, c.toNat < 128)
    ∧ (∀ o : JObj, rfO o ≤ fuel → ∀ c ∈ jDumpO o, c.toNat < 128) := by
  intro fuel
  induction fuel with
  | zero =>
    refine ⟨?_, ?_, ?_⟩
    · intro v hf
      have := rfJ_pos v
      omega
    · intro a hf
      have := rfA_pos a
      omega
    · intro o hf
      have := rfO_pos o
      omega
  | succ fuel ih =>
    obtain ⟨ihV, ihA, ihO⟩ := ih
    refine ⟨?_, ?_, ?_⟩
    · intro v hf c hc
      cases v with
      | str s => exact escStr_ascii s c hc
      | num i => exact intChars_ascii i c hc
      | arr a =>
        rw [show jDump (JVal.arr a) = '[' :: (jDumpA a ++ [']']) from rfl] at hc
        rcases List.mem_cons.mp hc with rfl | hc2
        · decide
        rcases List.mem_append.mp hc2 with hc3 | hc4
        · exact ihA a (by simp only [rfJ] at hf; omega) c hc3
        rcases List.mem_singleton.mp hc4 with rfl
        decide
      | obj o =>
        rw [show jDump (JVal.obj o) = lbc :: (jDumpO o ++ [rbc]) from rfl] at hc
        rcases List.mem_cons.mp hc with rfl | hc2
        · decide
        rcases List.mem_append.mp hc2 with hc3 | hc4
        · exact ihO o (by simp only [rfJ] at hf; omega) c hc3
        rcases List.mem_singleton.mp hc4 with rfl
        decide
    · intro a hf c hc
      cases a with
      | nil => simp [jDumpA] at hc
      | cons v a2 =>
        cases a2 with
        | nil =>
          rw [show jDumpA (JArr.cons v JArr.nil) = jDump v from by simp [jDumpA]] at hc
          exact ihV v (by simp only [rfA] at hf; omega) c hc
        | cons v2 a3 =>
          rw [show jDumpA (JArr.cons v (JArr.cons v2 a3))
              = jDump v ++ (',' :: ' ' :: jDumpA (JArr.cons v2 a3)) from by
            simp [jDumpA]] at hc
          rcases List.mem_append.mp hc with hc1 | hc2
          · exact ihV v (by simp only [rfA] at hf; omega) c hc1
          rcases List.mem_cons.mp hc2 with rfl | hc3
          · decide
          rcases List.mem_cons.mp hc3 with rfl | hc4
          · decide
          exact ihA (JArr.cons v2 a3) (by simp only [rfA] at hf ⊢; omega) c hc4
    · intro o hf c hc
      cases o with
      | nil => simp [jDumpO] at hc
      | cons k v o2 =>
        cases o2 with
        | nil =>
          rw [show jDumpO (JObj.cons k v JObj.nil)
              = escStr k ++ (':' :: ' ' :: jDump v) from by simp [jDumpO, escStr]] at hc
          rcases List.mem_append.mp hc with hc1 | hc2
          · exact escStr_ascii k c hc1
          rcases List.mem_cons.mp hc2 with rfl | hc3
          · decide
          rcases List.mem_cons.mp hc3 with rfl | hc4
          · decide
          exact ihV v (by simp only [rfO] at hf; omega) c hc4
        | cons k2 v2 o3 =>
          rw [show jDumpO (JObj.cons k v (JObj.cons k2 v2 o3))
              = escStr k ++ (':' :: ' ' :: jDump v
                  ++ (',' :: ' ' :: jDumpO (JObj.cons k2 v2 o3))) from by
            simp [jDumpO, escStr]] at hc
          rcases List.mem_append.mp hc with hc1 | hc2
          · exact escStr_ascii k c hc1
          rcases List.mem_cons.mp hc2 with rfl | hc3
          · decide
          rcases List.mem_cons.mp hc3 with rfl | hc4
          · decide
          rcases List.mem_append.mp hc4 with hc5 | hc6
          · exact ihV v (by simp only [rfO] at hf; omega) c hc5
          rcases List.mem_cons.mp hc6 with rfl | hc7
          · decide
          rcases List.mem_cons.mp hc7 with rfl | hc8
          · decide
          exact ihO (JObj.cons k2 v2 o3) (by simp only [rfO] at hf ⊢; omega) c hc8

theorem jDump_ascii (v : JVal) : ∀ c ∈ jDump v, c.toNat < 128 :=
  (jDump_ascii_aux (rfJ v)).1 v le_rfl

theorem jDump_len_pos (v : JVal) : 1 ≤ (jDump v).length := by
  obtain ⟨c, t2, hct, _⟩ := jDump_head_facts v
  rw [hct]
  simp

theorem rf_le_aux : ∀ (fuel : Nat),
    (∀ v : JVal, rfJ v ≤ fuel → rfJ v ≤ (jDump v).length)
    ∧ (∀ a : JArr, rfA a ≤ fuel → rfA a ≤ (jDumpA a).length + 1)
    ∧ (∀ o : JObj, rfO o ≤ fuel → rfO o ≤ (jDumpO o).length + 1) := by
  intro fuel
  induction fuel with
  | zero =>
    refine ⟨?_, ?_, ?_⟩
    · intro v hf
      have := rfJ_pos v
      omega
    · intro a hf
      have := rfA_pos a
      omega
    · intro o hf
      have := rfO_pos o
      omega
  | succ fuel ih =>
    obtain ⟨ihV, ihA, ihO⟩ := ih
    refine ⟨?_, ?_, ?_⟩
    · intro v hf
      cases v with
      | str s =>
        have := jDump_len_pos (JVal.str s)
        simp only [rfJ]
        omega
      | num i =>
        have := jDump_len_pos (JVal.num i)
        simp only [rfJ]
        omega
      | arr a =>
        have h1 := ihA a (by simp only [rfJ] at hf; omega)
        rw [show jDump (JVal.arr a) = '[' :: jDumpA a ++ [']'] from rfl]
        simp only [rfJ, List.length_cons, List.length_append, List.length_singleton]
        omega
      | obj o =>
        have h1 := ihO o (by simp only [rfJ] at hf; omega)
        rw [show jDump (JVal.obj o) = lbc :: jDumpO o ++ [rbc] from rfl]
        simp only [rfJ, List.length_cons, List.length_append, List.length_singleton]
        omega
    · intro a hf
      cases a with
      | nil => simp [rfA, jDumpA]
      | cons v a2 =>
        have hv := ihV v (by simp only [rfA] at hf; omega)
        have hvp := jDump_len_pos v
        cases a2 with
        | nil =>
          rw [show jDumpA (JArr.cons v JArr.nil) = jDump v from by simp [jDumpA]]
          simp only [rfA]
          omega
        | cons v2 a3 =>
          have ha := ihA (JArr.cons v2 a3) (by simp only [rfA] at hf ⊢; omega)
          rw [show jDumpA (JArr.cons v (JArr.cons v2 a3))
              = jDump v ++ (',' :: ' ' :: jDumpA (JArr.cons v2 a3)) from by
            simp [jDumpA]]
          simp only [rfA, List.length_append, List.length_cons]
          simp only [rfA] at ha
          omega
    · intro o hf
      cases o with
      | nil => simp [rfO, jDumpO]
      | cons k v o2 =>
        have hv := ihV v (by simp only [rfO] at hf; omega)
        have hvp := jDump_len_pos v
        cases o2 with
        | nil =>
          rw [show jDumpO (JObj.cons k v JObj.nil)
              = escStr k ++ (':' :: ' ' :: jDump v) from by simp [jDumpO, escStr]]
          simp only [rfO, List.length_append, List.length_cons]
          omega
        | cons k2 v2 o3 =>
          have ho := ihO (JObj.cons k2 v2 o3) (by simp only [rfO] at hf ⊢; omega)
          rw [show jDumpO (JObj.cons k v (JObj.cons k2 v2 o3))
              = escStr k ++ (':' :: ' ' :: jDump v
                  ++ (',' :: ' ' :: jDumpO (JObj.cons k2 v2 o3))) from by
            simp [jDumpO, escStr]]
          simp only [rfO, List.length_append, List.length_cons]
          simp only [rfO] at ho
          omega

theorem rfJ_le_len (v : JVal) : rfJ v ≤ (jDump v).length :=
  (rf_le_aux (rfJ v)).1 v le_rfl

theorem utf8Char_ascii (c : Char) (h : c.toNat < 128) : utf8Char c = [c.toNat] := by
  unfold utf8Char
  simp only []
  rw [if_pos h]

theorem utf8Encode_ascii (cs : List Char) (h : ∀ c ∈ cs, c.toNat < 128) :
    utf8Encode cs = cs.map Char.toNat := by
  induction cs with
  | nil => rfl
  | cons c cs ih =>
    rw [show utf8Encode (c :: cs) = utf8Char c ++ utf8Encode cs from by
      simp [utf8Encode]]
    rw [utf8Char_ascii c (h c (List.mem_cons_self c cs)),
      ih (fun d hd => h d (List.mem_cons_of_mem c hd))]
    rfl

theorem utf8Step_ascii (b : Nat) (h : b < 128) (rest : List Nat) :
    utf8Step (b :: rest) = some (b, rest) := by
  unfold utf8Step
  simp only []
  rw [if_pos h]

theorem utf8Decode_ascii : ∀ (f : Nat) (cs : List Char), cs.length < f →
    (∀ c ∈ cs, c.toNat < 128) → utf8Decode f (cs.map Char.toNat) = some cs := by
  intro f
  induction f with
  | zero =>
    intro cs h1 _
    omega
  | succ f ih =>
    intro cs h1 h2
    cases cs with
    | nil => rfl
    | cons c cs2 =>
      rw [List.map_cons]
      rw [show utf8Decode (f + 1) (c.toNat :: List.map Char.toNat cs2)
          = (match utf8Step (c.toNat :: List.map Char.toNat cs2) with
             | some (n, rest2) =>
                 (utf8Decode f rest2).map (fun ds => Char.ofNat n :: ds)
             | none => none) from rfl]
      rw [utf8Step_ascii c.toNat (h2 c (List.mem_cons_self c cs2)) _]
      show Option.map (fun ds => Char.ofNat c.toNat :: ds)
          (utf8Decode f (List.map Char.toNat cs2)) = some (c :: cs2)
      rw [ih cs2 (by simp only [List.length_cons] at h1; omega)
        (fun d hd => h2 d (List.mem_cons_of_mem c hd))]
      show some (Char.ofNat c.toNat :: cs2) = some (c :: cs2)
      rw [ofNat_toNat_char]

theorem recvHeaderBytes_step (b0 b1 b2 b3 : Nat) (rest : List Nat) :
    recvHeaderBytes (b0 :: b1 :: b2 :: b3 :: rest)
      = (if rest.length < be32val b0 b1 b2 b3 then none
         else
           match utf8Decode ((rest.take (be32val b0 b1 b2 b3)).length + 1)
               (rest.take (be32val b0 b1 b2 b3)) with
           | none => none
           | some cs =>
             match jParse (cs.length + 1) cs with
             | some (w, trail) =>
                 if (skipWs trail).isEmpty then
                   some (w, rest.drop (be32val b0 b1 b2 b3))
                 else none
             | none => none) := rfl

theorem recv_frame (cs : List Char) (v : JVal) (extra : List Nat)
    (hascii : ∀ c ∈ cs, c.toNat < 128)
    (hlen : cs.length < 4294967296)
    (hp : jParse (cs.length + 1) cs = some (v, [])) :
    recvHeaderBytes (be32 cs.length ++ (List.map Char.toNat cs ++ extra))
      = some (v, extra) := by
  rw [show be32 cs.length ++ (List.map Char.toNat cs ++ extra)
      = cs.length / 16777216 % 256 :: cs.length / 65536 % 256
        :: cs.length / 256 % 256 :: cs.length % 256
        :: (List.map Char.toNat cs ++ extra) from by simp [be32]]
  rw [recvHeaderBytes_step]
  have hval : be32val (cs.length / 16777216 % 256) (cs.length / 65536 % 256)
      (cs.length / 256 % 256) (cs.length % 256) = cs.length := by
    unfold be32val
    omega
  rw [hval]
  rw [if_neg (by rw [List.length_append, List.length_map]; omega)]
  have htake : (List.map Char.toNat cs ++ extra).take cs.length = List.map Char.toNat cs := by
    rw [show cs.length = (List.map Char.toNat cs).length from by rw [List.length_map]]
    exact List.take_left _ _
  have hdrop : (List.map Char.toNat cs ++ extra).drop cs.length = extra := by
    rw [show cs.length = (List.map Char.toNat cs).length from by rw [List.length_map]]
    exact List.drop_left _ _
  rw [htake]
  rw [utf8Decode_ascii ((List.map Char.toNat cs).length + 1) cs
    (by rw [List.length_map]; omega) hascii]
  show (match jParse (cs.length + 1) cs with
        | some (w, trail) =>
            if (skipWs trail).isEmpty then
              some (w, (List.map Char.toNat cs ++ extra).drop cs.length)
            else none
        | none => none) = some (v, extra)
  rw [hp, hdrop]
  rfl

/-- C9: send_header writes exactly a 4-byte big-endian unsigned length
prefix followed by the UTF-8 serialization of the header; the length is
recoverable from the prefix, and recv_header on a stream beginning with
those bytes returns the header itself with the rest of the stream
untouched (decode after encode is the identity on headers). -/
theorem C9_frame_encode_decode_roundtrip (v : JVal)
    (h : (utf8Encode (jDump v)).length < 4294967296) :
    sendHeaderBytes v
      = be32 (utf8Encode (jDump v)).length ++ utf8Encode (jDump v)
    ∧ (be32 (utf8Encode (jDump v)).length).length = 4
    ∧ be32val ((utf8Encode (jDump v)).length / 16777216 % 256)
        ((utf8Encode (jDump v)).length / 65536 % 256)
        ((utf8Encode (jDump v)).length / 256 % 256)
        ((utf8Encode (jDump v)).length % 256)
        = (utf8Encode (jDump v)).length
    ∧ ∀ extra : List Nat,
        recvHeaderBytes (sendHeaderBytes v ++ extra) = some (v, extra) := by
  refine ⟨rfl, rfl, by unfold be32val; omega, ?_⟩
  intro extra
  have hascii := jDump_ascii v
  have hdata : utf8Encode (jDump v) = (jDump v).map Char.toNat :=
    utf8Encode_ascii (jDump v) hascii
  have hlen2 : (utf8Encode (jDump v)).length = (jDump v).length := by
    rw [hdata, List.length_map]
  have hp : jParse ((jDump v).length + 1) (jDump v) = some (v, []) := by
    have h3 := (jParse_jDump ((jDump v).length + 1)).1 v []
      (by have := rfJ_le_len v; omega)
      (by intro c hc; simp at hc)
    rwa [List.append_nil] at h3
  have h4 := recv_frame (jDump v) v extra hascii (by omega) hp
  rw [show sendHeaderBytes v ++ extra
      = be32 (jDump v).length ++ (List.map Char.toNat (jDump v) ++ extra) from by
    show (be32 (utf8Encode (jDump v)).length ++ utf8Encode (jDump v)) ++ extra = _
    rw [hlen2, hdata, List.append_assoc]]
  exact h4

theorem C9_witness :
    (utf8Encode (jDump (JVal.obj (JObj.cons "type" (JVal.str "auth")
        (JObj.cons "username" (JVal.str "alice") JObj.nil))))).length < 4294967296
    ∧ recvHeaderBytes
        (sendHeaderBytes (JVal.obj (JObj.cons "type" (JVal.str "auth")
          (JObj.cons "username" (JVal.str "alice") JObj.nil))) ++ [0, 7])
      = some (JVal.obj (JObj.cons "type" (JVal.str "auth")
          (JObj.cons "username" (JVal.str "alice") JObj.nil)), [0, 7]) :=
  ⟨by decide,
    (C9_frame_encode_decode_roundtrip
      (JVal.obj (JObj.cons "type" (JVal.str "auth")
        (JObj.cons "username" (JVal.str "alice") JObj.nil)))
      (by decide)).2.2.2 [0, 7]⟩

end Codec
